import Mathlib

/-!
Shallow embedding of `gromacs/fileformats/xpm.py` (GromacsWrapper): the
Gromacs XPM matrix reader.  Python strings are modelled as `List Char`,
a file as the list of lines returned by `readline` in order (`readline`
past the end of the file yields the empty string, as in Python), NumPy
arrays as nested lists of tagged scalar values, and Python exceptions as
an explicit error type.  Log calls (`logger.debug` / `logger.fatal`) are
recorded as a list of severities, message text abstracted away.
-/

namespace Gmx

/-- Python exception classes that `XPM.parse` can raise. -/
inductive PyErr where
  | keyError
  | valueError
  | indexError
  | parseError
  | zeroDivisionError
deriving DecidableEq

/-- Severity of a log record; `xpm.py` only ever calls `logger.debug`
and `logger.fatal`. -/
inductive Sev where
  | debug
  | fatal
deriving DecidableEq

/-- Scalar values that can appear in the decoded matrix: the palette
values are strings, optionally autoconverted to bool/int/float. -/
inductive Value where
  | bool (b : Bool)
  | int (n : Int)
  | float (q : Rat)
  | str (s : List Char)
deriving DecidableEq

/-- Python whitespace, the class `\s` of `re` and the separator set of
`str.split()`. -/
def isPyWs (c : Char) : Bool :=
  c = ' ' ∨ c = '\t' ∨ c = '\n' ∨ c = '\r' ∨ c = '\x0b' ∨ c = '\x0c'

/-- A Python string. -/
abbrev PyStr := List Char

/-- A file, as the sequence of lines `readline` returns (each line keeps
its trailing newline; the last line may lack one). -/
abbrev File := List PyStr

/-- Python `file.readline()`: the next line, or the empty string at EOF. -/
def readline : File → PyStr × File
  | [] => ([], [])
  | l :: ls => (l, ls)

/-- Clamp an index for Python slice semantics: negative indices count
from the end, and both ends are clamped into `[0, len]`. -/
def sliceClamp (len : Nat) (i : Int) : Nat :=
  if i < 0 then ((len : Int) + i).toNat.min len else i.toNat.min len

/-- Python slice `s[a:b]` (step 1). -/
def pySlice (s : PyStr) (a b : Int) : PyStr :=
  let lo := sliceClamp s.length a
  let hi := sliceClamp s.length b
  (s.take hi).drop lo

/-- Python `s.find(c)`: first index of `c`, or `-1`. -/
def pyFind (s : PyStr) (c : Char) : Int :=
  match s.findIdx? (· = c) with
  | some i => i
  | none => -1

/-- Python `s.rfind(c)`: last index of `c`, or `-1`. -/
def pyRFind (s : PyStr) (c : Char) : Int :=
  match s.reverse.findIdx? (· = c) with
  | some i => (s.length : Int) - 1 - i
  | none => -1

/-- `XPM.unquote`: `s[1+s.find('"'):s.rfind('"')]`. -/
def unquote (s : PyStr) : PyStr :=
  pySlice s (1 + pyFind s '"') (pyRFind s '"')

/-- Auxiliary for `str.split()`: accumulate the current word. -/
def splitWsAux : PyStr → PyStr → List PyStr
  | [], acc => if acc = [] then [] else [acc.reverse]
  | c :: r, acc =>
    if isPyWs c then
      if acc = [] then splitWsAux r [] else acc.reverse :: splitWsAux r []
    else splitWsAux r (c :: acc)

/-- Python `s.split()` with no argument: split on runs of whitespace,
no empty fields. -/
def splitWs (s : PyStr) : List PyStr := splitWsAux s []

/-- Strip leading and trailing Python whitespace (as `int()` does). -/
def stripWs (t : PyStr) : PyStr :=
  ((t.dropWhile isPyWs).reverse.dropWhile isPyWs).reverse

/-- Numeric value of a decimal digit character. -/
def digitVal (c : Char) : Nat := c.toNat - '0'.toNat

/-- Natural number denoted by a digit string. -/
def natOfDigits (ds : PyStr) : Nat := ds.foldl (fun a c => 10 * a + digitVal c) 0

/-- Python `int(t)` on a string: optional surrounding whitespace,
optional sign, then a nonempty run of decimal digits; `none` models the
`ValueError` it raises otherwise. -/
def parsePyInt (t : PyStr) : Option Int :=
  match stripWs t with
  | '+' :: ds => if ds ≠ [] ∧ ds.all Char.isDigit then some (natOfDigits ds) else none
  | '-' :: ds => if ds ≠ [] ∧ ds.all Char.isDigit then some (-(natOfDigits ds : Int)) else none
  | ds => if ds ≠ [] ∧ ds.all Char.isDigit then some (natOfDigits ds) else none

/-- Character class `[ a-zA-Z]` of `XPM.COLOUR`: the pixmap symbol. -/
def symClass (c : Char) : Bool :=
  c = ' ' ∨ ('a' ≤ c ∧ c ≤ 'z') ∨ ('A' ≤ c ∧ c ≤ 'Z')

/-- Character class `[0-9A-F]` of `XPM.COLOUR`: upper-case hex digits. -/
def isHexU (c : Char) : Bool :=
  ('0' ≤ c ∧ c ≤ '9') ∨ ('A' ≤ c ∧ c ≤ 'F')

/-- Match a nonempty run of `p`-characters (regex `p+`) and return what
follows the run. -/
def dropWhile1 (p : Char → Bool) : PyStr → Option PyStr
  | [] => none
  | c :: r => if p c then some (r.dropWhile p) else none

/-- Regex `\s+ c \s+ \#[0-9A-F]+ \s* "` of `XPM.COLOUR`, applied after
the symbol character; returns the remainder after the closing quote.
Each quantified class is disjoint from the literal that follows it, so
maximal munch is exactly the backtracking semantics. -/
def matchAfterSym (r : PyStr) : Option PyStr :=
  match dropWhile1 isPyWs r with
  | none => none
  | some r1 =>
    match r1 with
    | 'c' :: r2 =>
      match dropWhile1 isPyWs r2 with
      | none => none
      | some r3 =>
        match r3 with
        | '#' :: r4 =>
          match dropWhile1 isHexU r4 with
          | none => none
          | some r5 =>
            match r5.dropWhile isPyWs with
            | '"' :: r6 => some r6
            | _ => none
        | _ => none
    | _ => none

/-- Regex `\s* /\* \s* "` of `XPM.COLOUR`: whitespace, the C-comment
opener, whitespace, the quote opening the value string. -/
def matchComment (r : PyStr) : Option PyStr :=
  match r.dropWhile isPyWs with
  | '/' :: '*' :: r =>
    match r.dropWhile isPyWs with
    | '"' :: r => some r
    | _ => none
  | _ => none

/-- Regex `(?P<value>.*)"`: `.` does not match a newline, and the greedy
`.*` backtracks to the last quote of the current line segment.  Returns
the value group, or `none` when no quote remains before the newline. -/
def matchValue (r : PyStr) : Option PyStr :=
  match ((r.takeWhile (· ≠ '\n')).reverse.dropWhile (· ≠ '"')) with
  | '"' :: rest => some rest.reverse
  | _ => none

/-- The part of `XPM.COLOUR` after the leading `^.*"`, applied to the
text following a candidate quote: symbol character, colour field,
comment opener, value. -/
def matchTail (l : PyStr) : Option (Char × PyStr) :=
  match l with
  | sym :: r =>
    if symClass sym then
      match matchAfterSym r with
      | none => none
      | some r8 =>
        match matchComment r8 with
        | none => none
        | some r12 =>
          match matchValue r12 with
          | none => none
          | some v => some (sym, v)
    else none
  | [] => none

/-- Try the candidate quote positions in the given order (the greedy
`^.*"` tries the rightmost viable quote first); `i` is the index of the
quote, the tail match starts at `i + 1`. -/
def tryCands (s : PyStr) : List Nat → Option (Char × PyStr)
  | [] => none
  | i :: rest =>
    match matchTail (s.drop (i + 1)) with
    | some r => some r
    | none => tryCands s rest

/-- Indices (offset by `i`) of the quote characters of a string. -/
def quoteIdxAux : Nat → PyStr → List Nat
  | _, [] => []
  | i, c :: r =>
    if c = '"' then i :: quoteIdxAux (i + 1) r else quoteIdxAux (i + 1) r

/-- Candidate quote positions for `^.*"`: quotes whose preceding prefix
is newline-free (the leading `.*` cannot cross a newline), rightmost
first. -/
def quoteCands (s : PyStr) : List Nat :=
  (quoteIdxAux 0 (s.takeWhile (· ≠ '\n'))).reverse

/-- `XPM.COLOUR.search(c)` restricted to the named groups `XPM.col`
uses: `some (symbol, value)` on a match, `none` otherwise. -/
def colourMatch (s : PyStr) : Option (Char × PyStr) :=
  tryCands s (quoteCands s)

/-- `XPM.col`: on a match log a debug record and return
`(symbol, value)`; otherwise log at fatal severity and raise
`ParseError`. -/
def col (c : PyStr) : List Sev × Except PyErr (Char × PyStr) :=
  match colourMatch c with
  | none => ([Sev.fatal], .error .parseError)
  | some sv => ([Sev.debug], .ok sv)

/-- Number of elements of Python `xrange(0, b, step)` (`step ≠ 0`). -/
def pyRangeLen (b step : Int) : Nat :=
  if 0 < step then ((b + step - 1).fdiv step).toNat
  else ((b + step + 1).fdiv step).toNat

/-- Python `xrange(0, b, step)` as a list (`step ≠ 0`). -/
def pyRangeKs (b step : Int) : List Int :=
  (List.range (pyRangeLen b step)).map (fun i : Nat => step * (i : Int))

/-- Python `dict` insertion: replace the value of an existing key in
place, else append the new pair. -/
def dictInsert {β : Type} : List (PyStr × β) → PyStr → β → List (PyStr × β)
  | [], k, v => [(k, v)]
  | (k', v') :: r, k, v =>
    if k' = k then (k', v) :: r else (k', v') :: dictInsert r k v

/-- Python `dict(pairs)`: keys unique, later duplicates overwrite
earlier ones (last write wins). -/
def dictOfList {β : Type} (l : List (PyStr × β)) : List (PyStr × β) :=
  l.foldl (fun d kv => dictInsert d kv.1 kv.2) []

/-- Python `d[k]` lookup, `none` modelling `KeyError`. -/
def dictFind {β : Type} : List (PyStr × β) → PyStr → Option β
  | [], _ => none
  | (k', v) :: r, k => if k' = k then some v else dictFind r k

/-- The `nc` palette lines: the list comprehension
`[self.col(xpm.readline()) for i in xrange(nc)]`.  Returns the logs, the
`(symbol, value)` pairs (or the first raised error), and the lines left
unread. -/
def buildColors : Nat → File → List Sev × Except PyErr (List (PyStr × PyStr)) × File
  | 0, ls => ([], .ok [], ls)
  | n + 1, ls =>
    match col (readline ls).1 with
    | (lg, .error e) => (lg, .error e, (readline ls).2)
    | (lg, .ok (c, v)) =>
      match buildColors n (readline ls).2 with
      | (lgs, res, ls'') => (lg ++ lgs, res.map (fun es => ([c], v) :: es), ls'')

/-- Parse of an optionally signed decimal number with a fraction part,
for the float case of the autoconverter. -/
def parseDecimal (t : PyStr) : Option Rat :=
  let core : PyStr → Option Rat := fun u =>
    let ip := u.takeWhile Char.isDigit
    match u.drop ip.length with
    | '.' :: fp =>
      if (ip ≠ [] ∨ fp ≠ []) ∧ fp.all Char.isDigit then
        some ((natOfDigits ip : Rat) + (natOfDigits fp : Rat) / ((10 : Rat) ^ fp.length))
      else none
    | _ => none
  match stripWs t with
  | '+' :: u => core u
  | '-' :: u => (core u).map Neg.neg
  | u => core u

/-- Modelled from the spec: `Autoconverter.convert` (mode `"singlet"`)
from `gromacs.fileformats.convert` is not under `src/`; the spec
describes it as guessing a best-fit scalar type (boolean / int / float /
string) from the free-form legend string, with `"True"`/`"False"`
becoming booleans.  Strings that fit none of those stay strings. -/
def autoconvertValue (s : PyStr) : Value :=
  if s = "True".toList then .bool true
  else if s = "False".toList then .bool false
  else match parsePyInt s with
  | some n => .int n
  | none =>
    match parseDecimal s with
    | some q => .float q
    | none => .str s

/-- One pass of the autoconversion loop over a palette value (the raw
values are strings). -/
def autoconvertRaw : Value → Value
  | .str s => autoconvertValue s
  | v => v

/-- NumPy dtype kinds relevant to the palette values, ordered by the
promotion rank NumPy applies to mixed inputs. -/
inductive DTag where
  | bool
  | int
  | float
  | str
deriving DecidableEq

/-- Promotion rank: bool < int < float < str. -/
def DTag.rank : DTag → Nat
  | .bool => 0
  | .int => 1
  | .float => 2
  | .str => 3

/-- Common type of two dtypes: the one of larger rank. -/
def DTag.promote (a b : DTag) : DTag := if a.rank ≤ b.rank then b else a

/-- Dtype of a scalar value. -/
def tagOf : Value → DTag
  | .bool _ => .bool
  | .int _ => .int
  | .float _ => .float
  | .str _ => .str

/-- `numpy.array(colors.values()).dtype`: the promotion maximum of the
value dtypes; NumPy gives `float64` for an empty input. -/
def inferDtype (vals : List Value) : DTag :=
  match vals with
  | [] => .float
  | _ => vals.foldl (fun d v => d.promote (tagOf v)) .bool

/-- The zero of a dtype, as `numpy.zeros` fills it. -/
def zeroOf : DTag → Value
  | .bool => .bool false
  | .int => .int 0
  | .float => .float 0
  | .str => .str []

/-- String rendering of a scalar, for NumPy's cast into a string dtype
(abstracted for floats, which no palette in scope produces). -/
def pyStrOf : Value → PyStr
  | .bool true => "True".toList
  | .bool false => "False".toList
  | .int n => (toString n).toList
  | .float _ => []
  | .str s => s

/-- NumPy cast of a scalar into the array dtype on assignment.  In
`parse` the dtype is the promotion maximum of all palette values, so
only upward casts are reachable; downward cases follow NumPy's
truncation conventions. -/
def castTo : DTag → Value → Value
  | .bool, .bool b => .bool b
  | .bool, .int n => .bool (n ≠ 0)
  | .bool, .float q => .bool (q ≠ 0)
  | .bool, .str s => .bool (s ≠ [])
  | .int, .bool b => .int (if b then 1 else 0)
  | .int, .int n => .int n
  | .int, .float q => .int q.floor
  | .int, .str _ => .int 0
  | .float, .bool b => .float (if b then 1 else 0)
  | .float, .int n => .float n
  | .float, .float q => .float q
  | .float, .str _ => .float 0
  | .str, v => .str (pyStrOf v)

/-- The decoded matrix: NumPy shape `(nx/nb, ny)`, the outer list along
axis 0 (length `nx/nb`), each inner list along axis 1 (length `ny`). -/
abbrev Mat := List (List Value)

/-- `numpy.zeros((n, m), dtype)`. -/
def zerosMat (n m : Nat) (dtype : DTag) : Mat :=
  List.replicate n (List.replicate m (zeroOf dtype))

/-- NumPy column assignment `data[:, iy] = vals`: `IndexError` when `iy`
is out of bounds along axis 1, an exact-length write when `vals` matches
axis 0, a broadcast when `vals` has length 1, `ValueError` otherwise. -/
def setColumn (mat : Mat) (ny iy : Nat) (vals : List Value) : Except PyErr Mat :=
  if ny ≤ iy then .error .indexError
  else if vals.length = mat.length then
    .ok (List.zipWith (fun row v => row.set iy v) mat vals)
  else
    match vals with
    | [v] => .ok (mat.map (fun row => row.set iy v))
    | _ => .error .valueError

/-- The row list comprehension
`[colors[s[k:k+nb]] for k in xrange(0,nx,nb)]`, evaluated left to right,
the first missing key raising `KeyError`. -/
def lookupRow (colors : List (PyStr × Value)) (s : PyStr) (nb : Int) :
    List Int → Except PyErr (List Value)
  | [] => .ok []
  | k :: ks =>
    match dictFind colors (pySlice s k (k + nb)) with
    | none => .error .keyError
    | some v => (lookupRow colors s nb ks).map (fun vs => v :: vs)

/-- Decode one data row from its unquoted text. -/
def decodeRow (colors : List (PyStr × Value)) (nx nb : Int) (s : PyStr) :
    Except PyErr (List Value) :=
  lookupRow colors s nb (pyRangeKs nx nb)

/-- Python `line.startswith("/*")`. -/
def isCommentLine (l : PyStr) : Bool := ['/', '*'].isPrefixOf l

/-- The `for line in xpm` loop of `XPM.parse`: skip comment lines,
unquote and decode the others into successive columns, logging a debug
record per decoded row.  Returns the final matrix and row counter. -/
def decodeLoop (colors : List (PyStr × Value)) (dtype : DTag) (nx nb : Int)
    (ny : Nat) : File → Nat → Mat → List Sev → List Sev × Except PyErr (Mat × Nat)
  | [], iy, mat, logs => (logs, .ok (mat, iy))
  | l :: ls, iy, mat, logs =>
    if isCommentLine l then decodeLoop colors dtype nx nb ny ls iy mat logs
    else
      match decodeRow colors nx nb (unquote l) with
      | .error e => (logs, .error e)
      | .ok vals =>
        match setColumn mat ny iy (vals.map (castTo dtype)) with
        | .error e => (logs, .error e)
        | .ok mat' => decodeLoop colors dtype nx nb ny ls (iy + 1) mat' (logs ++ [Sev.debug])

/-- `nx, ny, nc, nb = [int(i) for i in self.unquote(dim).split()]`:
every token must parse as an int and there must be exactly four of them;
both failures raise `ValueError`. -/
def parse4Ints (s : PyStr) : Except PyErr (Int × Int × Int × Int) :=
  match (splitWs s).mapM parsePyInt with
  | none => .error .valueError
  | some vals =>
    match vals with
    | [a, b, c, d] => .ok (a, b, c, d)
    | _ => .error .valueError

/-- The palette after `colors = dict(...)` and the optional
autoconversion pass: the dict is built first (duplicate symbols
overwrite, last write wins), then every value is converted in place when
`autoconvert` is set. -/
def paletteOf (ac : Bool) (rawPairs : List (PyStr × PyStr)) : List (PyStr × Value) :=
  let colors0 := dictOfList (rawPairs.map (fun kv => (kv.1, Value.str kv.2)))
  if ac then colors0.map (fun kv => (kv.1, autoconvertRaw kv.2)) else colors0

/-- `numpy.array(colors.values()).dtype` for a palette. -/
def dtypeOf (colors : List (PyStr × Value)) : DTag :=
  inferDtype (colors.map (fun kv => kv.2))

/-- Body of `XPM.parse` after the header scan: dimension line, palette
block, optional autoconversion, dtype inference, allocation, row decode.
Returns the log records in order and the matrix or the raised error. -/
def parseBody (ac : Bool) (rest : File) : List Sev × Except PyErr Mat :=
  match parse4Ints (unquote (readline rest).1) with
  | .error e => ([], .error e)
  | .ok (nx, ny, nc, nb) =>
    match buildColors nc.toNat (readline rest).2 with
    | (clogs, .error e, _) => (clogs, .error e)
    | (clogs, .ok rawPairs, r2) =>
      let colors := paletteOf ac rawPairs
      let logs1 := clogs ++ (if ac then [Sev.debug] else []) ++ [Sev.debug]
      let dtype := dtypeOf colors
      if nb = 0 then (logs1, .error .zeroDivisionError)
      else if nx.fdiv nb < 0 ∨ ny < 0 then (logs1, .error .valueError)
      else
        match decodeLoop colors dtype nx nb ny.toNat r2 0
            (zerosMat (nx.fdiv nb).toNat ny.toNat dtype) (logs1 ++ [Sev.debug]) with
        | (logs, .error e) => (logs, .error e)
        | (logs, .ok (mat, _)) => (logs, .ok mat)

/-- The marker string of the header scan. -/
def markerStr : PyStr := "static char *gromacs_xpm[]".toList

/-- The header scan loop
`while not meta[-1].startswith("static char *gromacs_xpm[]")` with
explicit fuel: at EOF `readline` keeps returning the empty string, which
never starts with the marker, so the loop only stops by finding a marker
line. -/
def headerScanFuel : Nat → File → Option File
  | 0, _ => none
  | n + 1, ls =>
    let (l, ls') := readline ls
    if markerStr.isPrefixOf l then some ls' else headerScanFuel n ls'

/-- Termination of the header scan: some amount of fuel suffices. -/
def scanTerminates (f : File) : Prop := ∃ n r, headerScanFuel n f = some r

/-- The terminating abstraction of the header scan: the lines after the
first line starting with the marker, `none` when no line does (in which
case the Python loop does not terminate). -/
def findMarker : File → Option File
  | [] => none
  | l :: ls => if markerStr.isPrefixOf l then some ls else findMarker ls

/-- Full `XPM.parse` on a file's lines: `none` models the
non-terminating header scan of a marker-less file. -/
def parseFile (ac : Bool) (file : File) : Option (List Sev × Except PyErr Mat) :=
  (findMarker file).map (parseBody ac)

/-- The matrix container: the `autoconvert` flag and the private
`__array` exposed read-only through the `array` property. -/
structure XPM where
  autoconvert : Bool
  array : Option Mat
deriving DecidableEq

/-- `XPM.parse` as an update of the container: `self.__array = data`
runs only after the whole decode succeeds, so on an error the raised
exception propagates and the container is unchanged.  Returns the new
container state, the raised error if any, and the log records; `none`
models the non-terminating header scan. -/
def XPM.parse (x : XPM) (file : File) : Option (XPM × Option PyErr × List Sev) :=
  (parseFile x.autoconvert file).map fun lr =>
    match lr with
    | (logs, .ok m) => ({ x with array := some m }, none, logs)
    | (logs, .error e) => (x, some e, logs)

/-- Entry of the matrix at axis-0 index `i`, axis-1 index `j`. -/
def entry? (mat : Mat) (i j : Nat) : Option Value :=
  (mat[i]?).bind (fun r => r[j]?)

/-- Number of non-comment lines: the data rows the decode loop consumes
(each bumps the row counter `iy`). -/
def countNC (ls : File) : Nat := (ls.filter (fun l => !isCommentLine l)).length

/-- The `n` lines the palette block reads with `xpm.readline()` (the
empty string past EOF). -/
def readLines : Nat → File → File
  | 0, _ => []
  | n + 1, ls => (readline ls).1 :: readLines n (readline ls).2

/-- Claim-side reading of a palette line: the character immediately
following the first quote mark. -/
def firstQuoteSucc (s : PyStr) : Option Char :=
  match s.dropWhile (· ≠ '"') with
  | _ :: c :: _ => some c
  | _ => none

/-- Claim-side reading: the text after the first C-comment opener
`/*`. -/
def afterCommentOpen : PyStr → Option PyStr
  | [] => none
  | a :: r =>
    if a = '/' then
      match r with
      | '*' :: r' => some r'
      | _ => afterCommentOpen r
    else afterCommentOpen r

/-- Claim-side reading: the substring between the next two quote
marks. -/
def betweenNextQuotes (r : PyStr) : Option PyStr :=
  match r.dropWhile (· ≠ '"') with
  | '"' :: r' => some (r'.takeWhile (· ≠ '"'))
  | _ => none

/-- Claim-side reading of a palette line's value: the substring between
the quotes following the C-comment opener `/*`. -/
def valueAfterComment (s : PyStr) : Option PyStr :=
  (afterCommentOpen s).bind betweenNextQuotes

/-- A well-formed legend line, assembled from its parts: opening quote,
symbol, whitespace, `c`, whitespace, `#`-prefixed hex colour, optional
whitespace, closing quote, optional whitespace, `/*`, optional
whitespace, quoted value, arbitrary quote-free tail. -/
def mkLegend (c : Char) (ws1 ws2 hex ws3 ws4 ws5 val tl : PyStr) : PyStr :=
  '"' :: c :: (ws1 ++ 'c' :: (ws2 ++ '#' ::
    (hex ++ ws3 ++ '"' :: (ws4 ++ '/' :: '*' ::
      (ws5 ++ '"' :: (val ++ '"' :: tl))))))

/-- Number of quote marks of a string. -/
def countQ (s : PyStr) : Nat := s.count '"'

/-- A fresh container, as `XPM()` builds it: autoconversion on, no
array yet. -/
def xpm0 : XPM := { autoconvert := true, array := none }

/-- The two palette lines shared by the concrete fixtures: symbol `' '`
maps to value `"0"`, symbol `'o'` to value `"1"`. -/
def palLines : File :=
  [ "\"   c #FFFFFF \" /* \"0\" */,\n".toList,
    "\"o  c #FF0000 \" /* \"1\" */,\n".toList ]

/-- Assemble a fixture: a metadata line, the marker line, a dimension
line, the shared palette, data rows. -/
def mkFixture (dim : String) (rows : List String) : File :=
  "/* XPM */\n".toList ::
  "static char *gromacs_xpm[] = \x7b\n".toList ::
  dim.toList :: palLines ++ rows.map String.toList

/-- The hand-built fixture of the spec with consistent dimensions:
nx=2, ny=2, nc=2, nb=1, rows `" o"` and `"o "`. -/
def fileGood : File := mkFixture "\"2 2 2 1\",\n" ["\" o\",\n", "\"o \"\x7d;\n"]

/-- The spec's fixture exactly as the claim states it: nx=4 while the
rows hold only two symbols each. -/
def fileC3stated : File := mkFixture "\"4 2 2 1\",\n" ["\" o\",\n", "\"o \"\x7d;\n"]

/-- Fixture with nx=3 not divisible by nb=2, one full row of nx
symbols. -/
def fileC2bad : File := mkFixture "\"3 2 2 2\",\n" ["\" oo\",\n"]

/-- Fixture declaring ny=3 rows but holding a single data row. -/
def fileC5short : File := mkFixture "\"2 3 2 1\",\n" ["\" o\",\n"]

/-- Fixture whose second data row holds the unknown symbol `'x'`. -/
def fileC4unknown : File := mkFixture "\"2 2 2 1\",\n" ["\" o\",\n", "\"xo\"\x7d;\n"]

/-- Fixture declaring nx=3 whose only data row holds two symbols. -/
def fileC10short : File := mkFixture "\"3 2 2 1\",\n" ["\" o\",\n"]

/-- Fixture whose dimension line holds only three integers. -/
def fileC8bad : File := mkFixture "\"2 2 2\",\n" ["\" o\",\n"]

/-- Fixture whose second palette line does not match the legend
pattern. -/
def fileC7bad : File :=
  "static char *gromacs_xpm[] = \x7b\n".toList ::
  "\"2 2 2 1\",\n".toList ::
  "\"   c #FFFFFF \" /* \"0\" */,\n".toList ::
  "bogus\n".toList ::
  ["\" o\",\n".toList]

/-- A file none of whose lines starts with the marker string. -/
def fileC9nomarker : File := ["hello\n".toList]

/-- An adversarial legend line: its first two quote marks are adjacent,
yet the greedy `^.*"` of `XPM.COLOUR` anchors at the second quote and
extracts symbol `'o'`. -/
def cexC6line : PyStr := "\"\"o  c #FF \" /* \"v\" */".toList

/-! ## Header scan: the fueled loop against its terminating abstraction -/

theorem headerScanFuel_sound :
    ∀ (n : Nat) (f r : File), headerScanFuel n f = some r → findMarker f = some r := by
  intro n
  induction n with
  | zero => intro f r h; simp [headerScanFuel] at h
  | succ n ih =>
    intro f r h
    cases f with
    | nil =>
      simp only [headerScanFuel, readline] at h
      rw [if_neg (by decide)] at h
      have := ih [] r h
      simp [findMarker] at this
    | cons l ls =>
      simp only [headerScanFuel, readline] at h
      by_cases hp : markerStr.isPrefixOf l
      · rw [if_pos hp] at h
        simp only [findMarker, if_pos hp]
        exact h
      · rw [if_neg hp] at h
        simp only [findMarker, if_neg hp]
        exact ih ls r h

theorem findMarker_terminates :
    ∀ (f r : File), findMarker f = some r → ∃ n, headerScanFuel n f = some r := by
  intro f
  induction f with
  | nil => intro r h; simp [findMarker] at h
  | cons l ls ih =>
    intro r h
    by_cases hp : markerStr.isPrefixOf l
    · refine ⟨1, ?_⟩
      simp only [findMarker, if_pos hp] at h
      simp only [headerScanFuel, readline, if_pos hp]
      exact h
    · simp only [findMarker, if_neg hp] at h
      obtain ⟨n, hn⟩ := ih r h
      refine ⟨n + 1, ?_⟩
      simp only [headerScanFuel, readline, if_neg hp]
      exact hn

theorem headerScanFuel_none :
    ∀ (n : Nat) (f : File), findMarker f = none → headerScanFuel n f = none := by
  intro n
  induction n with
  | zero => intro f _; rfl
  | succ n ih =>
    intro f h
    cases f with
    | nil =>
      simp only [headerScanFuel, readline]
      rw [if_neg (by decide)]
      exact ih [] rfl
    | cons l ls =>
      simp only [findMarker] at h
      by_cases hp : markerStr.isPrefixOf l
      · rw [if_pos hp] at h; cases h
      · rw [if_neg hp] at h
        simp only [headerScanFuel, readline, if_neg hp]
        exact ih ls h

theorem findMarker_of_mem :
    ∀ (f : File), (∃ l ∈ f, markerStr.isPrefixOf l = true) → ∃ r, findMarker f = some r := by
  intro f
  induction f with
  | nil => rintro ⟨l, hl, _⟩; cases hl
  | cons a ls ih =>
    rintro ⟨l, hl, hp⟩
    by_cases ha : markerStr.isPrefixOf a
    · exact ⟨ls, by simp [findMarker, ha]⟩
    · rcases List.mem_cons.mp hl with rfl | hl'
      · exact absurd hp (by simp [ha])
      · obtain ⟨r, hr⟩ := ih ⟨l, hl', hp⟩
        exact ⟨r, by simp [findMarker, ha, hr]⟩

/-- C9, the part that fails: parse of a file with no marker line.  The
header scan keeps reading the empty string at EOF, which never starts
with the marker, so no amount of fuel makes the loop stop: `parse` does
not terminate on such a file (the model marks it `none`). -/
theorem claim_C9_counterexample :
    ¬ scanTerminates fileC9nomarker ∧ XPM.parse xpm0 fileC9nomarker = none := by
  constructor
  · rintro ⟨n, r, h⟩
    rw [headerScanFuel_none n fileC9nomarker (by decide)] at h
    cases h
  · rfl

/-- C9, amended: `parse` terminates on every input file that has a line
starting with the marker string: the header scan stops (some fuel
suffices and agrees with the terminating abstraction), and the whole
parse then runs to completion, producing a matrix or raising an
error. -/
theorem claim_C9_parse_terminates (x : XPM) (file : File)
    (h : ∃ l ∈ file, markerStr.isPrefixOf l = true) :
    scanTerminates file ∧ ∃ st err logs, XPM.parse x file = some (st, err, logs) := by
  obtain ⟨r, hr⟩ := findMarker_of_mem file h
  obtain ⟨n, hn⟩ := findMarker_terminates file r hr
  refine ⟨⟨n, r, hn⟩, ?_⟩
  have hpf : parseFile x.autoconvert file = some (parseBody x.autoconvert r) := by
    simp [parseFile, hr]
  rcases hb : parseBody x.autoconvert r with ⟨logs, res⟩
  cases res with
  | ok m =>
    refine ⟨{ x with array := some m }, none, logs, ?_⟩
    simp [XPM.parse, hpf, hb]
  | error e =>
    refine ⟨x, some e, logs, ?_⟩
    simp [XPM.parse, hpf, hb]

/-- Witness for the amended C9 at a concrete file containing the
marker. -/
theorem claim_C9_parse_terminates_witness :
    scanTerminates fileGood ∧ ∃ st err logs, XPM.parse xpm0 fileGood = some (st, err, logs) :=
  claim_C9_parse_terminates xpm0 fileGood
    ⟨"static char *gromacs_xpm[] = \x7b\n".toList, by simp [fileGood, mkFixture], by decide⟩

/-! ## Plumbing lemmas for the parse pipeline -/

theorem parse_ok_eq (x : XPM) (file rest : File) (logs : List Sev) (m : Mat)
    (h : findMarker file = some rest)
    (hb : parseBody x.autoconvert rest = (logs, .ok m)) :
    XPM.parse x file = some ({ x with array := some m }, none, logs) := by
  simp [XPM.parse, parseFile, h, hb]

theorem parse_error_eq (x : XPM) (file rest : File) (logs : List Sev) (e : PyErr)
    (h : findMarker file = some rest)
    (hb : parseBody x.autoconvert rest = (logs, .error e)) :
    XPM.parse x file = some (x, some e, logs) := by
  simp [XPM.parse, parseFile, h, hb]

/-- The decode loop only appends to the incoming log list. -/
theorem decodeLoop_logs (colors : List (PyStr × Value)) (dtype : DTag) (nx nb : Int)
    (ny : Nat) :
    ∀ (lines : File) (iy : Nat) (mat : Mat) (logs : List Sev),
    decodeLoop colors dtype nx nb ny lines iy mat logs =
      (logs ++ (decodeLoop colors dtype nx nb ny lines iy mat []).1,
        (decodeLoop colors dtype nx nb ny lines iy mat []).2) := by
  intro lines
  induction lines with
  | nil => intro iy mat logs; simp [decodeLoop]
  | cons l ls ih =>
    intro iy mat logs
    by_cases hc : isCommentLine l
    · simp only [decodeLoop, if_pos hc]
      exact ih iy mat logs
    · simp only [decodeLoop, if_neg hc]
      cases hrow : decodeRow colors nx nb (unquote l) with
      | error e => simp [hrow]
      | ok vals =>
        simp only [hrow]
        cases hset : setColumn mat ny iy (vals.map (castTo dtype)) with
        | error e => simp [hset]
        | ok mat' =>
          simp only [hset]
          rw [ih (iy + 1) mat' (logs ++ [Sev.debug]), ih (iy + 1) mat' ([] ++ [Sev.debug])]
          simp

/-- Splitting the decode loop at a list append. -/
theorem decodeLoop_append (colors : List (PyStr × Value)) (dtype : DTag) (nx nb : Int)
    (ny : Nat) :
    ∀ (l1 l2 : File) (iy : Nat) (mat : Mat) (logs : List Sev),
    decodeLoop colors dtype nx nb ny (l1 ++ l2) iy mat logs =
      (match decodeLoop colors dtype nx nb ny l1 iy mat logs with
        | (lg, .ok (m, iy')) => decodeLoop colors dtype nx nb ny l2 iy' m lg
        | (lg, .error e) => (lg, .error e)) := by
  intro l1
  induction l1 with
  | nil => intro l2 iy mat logs; simp [decodeLoop]
  | cons l ls ih =>
    intro l2 iy mat logs
    by_cases hc : isCommentLine l
    · simp only [List.cons_append, decodeLoop, if_pos hc]
      exact ih l2 iy mat logs
    · simp only [List.cons_append, decodeLoop, if_neg hc]
      cases hrow : decodeRow colors nx nb (unquote l) with
      | error e => simp [hrow]
      | ok vals =>
        simp only [hrow]
        cases hset : setColumn mat ny iy (vals.map (castTo dtype)) with
        | error e => simp [hset]
        | ok mat' =>
          simp only [hset]
          exact ih l2 (iy + 1) mat' (logs ++ [Sev.debug])

/-! ## Column assignment and matrix shape -/

theorem zipWith_set_entry (iy j : Nat) (hj : j ≠ iy) :
    ∀ (mat : Mat) (vals : List Value) (i : Nat), vals.length = mat.length →
    entry? (List.zipWith (fun row v => row.set iy v) mat vals) i j = entry? mat i j := by
  intro mat
  induction mat with
  | nil => intro vals i _; simp [entry?]
  | cons row mr ih =>
    intro vals i hlen
    cases vals with
    | nil => simp at hlen
    | cons v vs =>
      simp only [List.length_cons, Nat.succ_inj] at hlen
      cases i with
      | zero =>
        simp only [List.zipWith_cons_cons, entry?, List.getElem?_cons_zero, Option.bind_some]
        exact List.getElem?_set_ne (fun h => hj h.symm)
      | succ i =>
        simp only [List.zipWith_cons_cons, entry?, List.getElem?_cons_succ]
        exact ih vs i hlen

theorem map_set_entry (iy j : Nat) (hj : j ≠ iy) (v : Value) (mat : Mat) (i : Nat) :
    entry? (mat.map (fun row => row.set iy v)) i j = entry? mat i j := by
  simp only [entry?, List.getElem?_map]
  cases mat[i]? with
  | none => rfl
  | some r => exact List.getElem?_set_ne (fun h => hj h.symm)

theorem mem_zipWith_set :
    ∀ (mat : Mat) (vals : List Value) (iy : Nat) (r : List Value),
    r ∈ List.zipWith (fun row v => row.set iy v) mat vals →
    ∃ row ∈ mat, ∃ v, r = row.set iy v := by
  intro mat
  induction mat with
  | nil => intro vals iy r h; simp at h
  | cons row mr ih =>
    intro vals iy r h
    cases vals with
    | nil => simp at h
    | cons v vs =>
      simp only [List.zipWith_cons_cons, List.mem_cons] at h
      rcases h with rfl | h
      · exact ⟨row, List.mem_cons_self row mr, v, rfl⟩
      · obtain ⟨row', hrow', v', hv'⟩ := ih vs iy r h
        exact ⟨row', List.mem_cons_of_mem row hrow', v', hv'⟩

theorem setColumn_inv (mat : Mat) (ny iy : Nat) (vals : List Value) (mat' : Mat)
    (h : setColumn mat ny iy vals = .ok mat') :
    iy < ny ∧
    ((vals.length = mat.length ∧
        mat' = List.zipWith (fun row v => row.set iy v) mat vals) ∨
      (∃ v, vals = [v] ∧ mat' = mat.map (fun row => row.set iy v))) := by
  unfold setColumn at h
  split at h
  · exact absurd h (by simp)
  next h1 =>
    refine ⟨Nat.lt_of_not_le h1, ?_⟩
    split at h
    next h2 =>
      refine Or.inl ⟨h2, ?_⟩
      injection h with h
      exact h.symm
    next h2 =>
      split at h
      next v =>
        refine Or.inr ⟨v, rfl, ?_⟩
        injection h with h
        exact h.symm
      next => exact absurd h (by simp)

theorem setColumn_entry_ne (mat : Mat) (ny iy : Nat) (vals : List Value) (mat' : Mat)
    (h : setColumn mat ny iy vals = .ok mat') (i j : Nat) (hj : j ≠ iy) :
    entry? mat' i j = entry? mat i j := by
  rcases (setColumn_inv mat ny iy vals mat' h).2 with ⟨hlen, rfl⟩ | ⟨v, _, rfl⟩
  · exact zipWith_set_entry iy j hj mat vals i hlen
  · exact map_set_entry iy j hj v mat i

theorem setColumn_length (mat : Mat) (ny iy : Nat) (vals : List Value) (mat' : Mat)
    (h : setColumn mat ny iy vals = .ok mat') : mat'.length = mat.length := by
  rcases (setColumn_inv mat ny iy vals mat' h).2 with ⟨hlen, rfl⟩ | ⟨v, _, rfl⟩
  · simp [List.length_zipWith, hlen]
  · simp

theorem setColumn_rowlen (mat : Mat) (ny iy : Nat) (vals : List Value) (mat' : Mat)
    (m : Nat) (h : setColumn mat ny iy vals = .ok mat')
    (hm : ∀ r ∈ mat, r.length = m) : ∀ r ∈ mat', r.length = m := by
  rcases (setColumn_inv mat ny iy vals mat' h).2 with ⟨_, rfl⟩ | ⟨v, _, rfl⟩
  · intro r hr
    obtain ⟨row, hrow, v, rfl⟩ := mem_zipWith_set mat vals iy r hr
    simp [hm row hrow]
  · intro r hr
    obtain ⟨row, hrow, rfl⟩ := List.mem_map.mp hr
    simp [hm row hrow]

/-- The decode loop preserves the matrix shape. -/
theorem decodeLoop_shape (colors : List (PyStr × Value)) (dtype : DTag) (nx nb : Int)
    (ny : Nat) :
    ∀ (lines : File) (iy : Nat) (mat : Mat) (logs logs' : List Sev) (mat' : Mat) (iy' : Nat),
    decodeLoop colors dtype nx nb ny lines iy mat logs = (logs', .ok (mat', iy')) →
    mat'.length = mat.length ∧
      ∀ m, (∀ r ∈ mat, r.length = m) → ∀ r ∈ mat', r.length = m := by
  intro lines
  induction lines with
  | nil =>
    intro iy mat logs logs' mat' iy' h
    simp only [decodeLoop, Prod.mk.injEq, Except.ok.injEq] at h
    obtain ⟨-, hm, -⟩ := h
    subst hm
    exact ⟨rfl, fun m hm => hm⟩
  | cons l ls ih =>
    intro iy mat logs logs' mat' iy' h
    by_cases hc : isCommentLine l
    · simp only [decodeLoop, if_pos hc] at h
      exact ih iy mat logs logs' mat' iy' h
    · simp only [decodeLoop, if_neg hc] at h
      cases hrow : decodeRow colors nx nb (unquote l) with
      | error e => simp only [hrow] at h; simp at h
      | ok vals =>
        simp only [hrow] at h
        cases hset : setColumn mat ny iy (vals.map (castTo dtype)) with
        | error e => simp only [hset] at h; simp at h
        | ok mat1 =>
          simp only [hset] at h
          obtain ⟨hl, hr⟩ := ih (iy + 1) mat1 (logs ++ [Sev.debug]) logs' mat' iy' h
          refine ⟨hl.trans (setColumn_length _ _ _ _ _ hset), ?_⟩
          intro m hm
          exact hr m (setColumn_rowlen _ _ _ _ _ m hset hm)

/-- Shape of a successful `parseBody`: the matrix allocated as
`(nx/nb, ny)` (floor division) keeps that shape through the decode
loop. -/
theorem parseBody_ok_shape (ac : Bool) (rest : File) (logs : List Sev) (mat : Mat)
    (nx ny nc nb : Int)
    (h2 : parse4Ints (unquote (readline rest).1) = .ok (nx, ny, nc, nb))
    (h3 : parseBody ac rest = (logs, .ok mat)) :
    mat.length = (nx.fdiv nb).toNat ∧ ∀ r ∈ mat, r.length = ny.toNat := by
  simp only [parseBody, h2] at h3
  rcases hbc : buildColors nc.toNat (readline rest).2 with ⟨clogs, cres, r2⟩
  rw [hbc] at h3
  cases cres with
  | error e => simp at h3
  | ok raws =>
    simp only [] at h3
    by_cases hnb : nb = 0
    · rw [if_pos hnb] at h3; simp at h3
    · rw [if_neg hnb] at h3
      by_cases hneg : nx.fdiv nb < 0 ∨ ny < 0
      · rw [if_pos hneg] at h3; simp at h3
      · rw [if_neg hneg] at h3
        rcases hdl : decodeLoop (paletteOf ac raws) (dtypeOf (paletteOf ac raws)) nx nb
            ny.toNat r2 0 (zerosMat (nx.fdiv nb).toNat ny.toNat (dtypeOf (paletteOf ac raws)))
            ((clogs ++ (if ac then [Sev.debug] else []) ++ [Sev.debug]) ++ [Sev.debug])
          with ⟨lgs, res⟩
        rw [hdl] at h3
        cases res with
        | error e => simp at h3
        | ok p =>
          rcases p with ⟨mat0', iy'⟩
          simp only [Prod.mk.injEq, Except.ok.injEq] at h3
          obtain ⟨-, hmat⟩ := h3
          subst hmat
          obtain ⟨hl, hr⟩ := decodeLoop_shape _ _ nx nb ny.toNat r2 0 _ _ lgs mat0' iy' hdl
          constructor
          · rw [hl]; simp [zerosMat]
          · refine hr ny.toNat ?_
            intro r hrm
            have := List.eq_of_mem_replicate hrm
            simp [this]

/-- C1: whenever `parse` decodes an input file successfully with header
integers `nx, ny, nc, nb`, the array it stores has shape
`(nx/nb, ny)` with `nx/nb` the integer floor division. -/
theorem claim_C1_shape (x : XPM) (file rest : File) (logs : List Sev) (mat : Mat)
    (nx ny nc nb : Int)
    (h1 : findMarker file = some rest)
    (h2 : parse4Ints (unquote (readline rest).1) = .ok (nx, ny, nc, nb))
    (h3 : parseBody x.autoconvert rest = (logs, .ok mat)) :
    XPM.parse x file = some ({ x with array := some mat }, none, logs) ∧
      mat.length = (nx.fdiv nb).toNat ∧ ∀ r ∈ mat, r.length = ny.toNat :=
  ⟨parse_ok_eq x file rest logs mat h1 h3,
    parseBody_ok_shape x.autoconvert rest logs mat nx ny nc nb h2 h3⟩

/-- Witness for C1 at the concrete fixture (nx=2, ny=2, nc=2, nb=1). -/
theorem claim_C1_shape_witness :
    XPM.parse xpm0 fileGood =
        some ({ xpm0 with array := some [[Value.int 0, Value.int 1], [Value.int 1, Value.int 0]] },
          none, List.replicate 7 Sev.debug) ∧
      ([[Value.int 0, Value.int 1], [Value.int 1, Value.int 0]] : Mat).length =
        ((2 : Int).fdiv 1).toNat ∧
      ∀ r ∈ ([[Value.int 0, Value.int 1], [Value.int 1, Value.int 0]] : Mat),
        r.length = (2 : Int).toNat :=
  claim_C1_shape xpm0 fileGood (fileGood.drop 2) (List.replicate 7 Sev.debug)
    [[Value.int 0, Value.int 1], [Value.int 1, Value.int 0]] 2 2 2 1
    rfl rfl rfl

/-! ## Missing data rows stay at the allocation default -/

theorem countNC_cons_comment (l : PyStr) (ls : File) (hc : isCommentLine l = true) :
    countNC (l :: ls) = countNC ls := by
  simp [countNC, List.filter_cons, hc]

theorem countNC_cons_row (l : PyStr) (ls : File) (hc : isCommentLine l = false) :
    countNC (l :: ls) = countNC ls + 1 := by
  simp [countNC, List.filter_cons, hc]

/-- When every non-comment line decodes to a full row and fewer rows
than `ny` remain, the loop succeeds and the columns at and beyond the
final row counter keep their incoming entries. -/
theorem decodeLoop_fill (colors : List (PyStr × Value)) (dtype : DTag) (nx nb : Int)
    (ny : Nat) :
    ∀ (lines : File) (iy : Nat) (mat : Mat) (logs : List Sev),
    (∀ l ∈ lines, isCommentLine l = false →
      ∃ vals, decodeRow colors nx nb (unquote l) = .ok vals ∧ vals.length = mat.length) →
    iy + countNC lines ≤ ny →
    ∃ logs' mat',
      decodeLoop colors dtype nx nb ny lines iy mat logs =
          (logs', .ok (mat', iy + countNC lines)) ∧
        mat'.length = mat.length ∧
        ∀ i j, iy + countNC lines ≤ j → entry? mat' i j = entry? mat i j := by
  intro lines
  induction lines with
  | nil =>
    intro iy mat logs _ _
    refine ⟨logs, mat, ?_, rfl, fun i j _ => rfl⟩
    simp [decodeLoop, countNC]
  | cons l ls ih =>
    intro iy mat logs hrows hcnt
    by_cases hc : isCommentLine l
    · rw [countNC_cons_comment l ls hc] at hcnt ⊢
      simp only [decodeLoop, if_pos hc]
      exact ih iy mat logs (fun l' hl' => hrows l' (List.mem_cons_of_mem l hl')) hcnt
    · have hc' : isCommentLine l = false := Bool.eq_false_iff.mpr hc
      rw [countNC_cons_row l ls hc'] at hcnt ⊢
      obtain ⟨vals, hrow, hlen⟩ := hrows l (List.mem_cons_self l ls) hc'
      have hiy : iy < ny := by omega
      have hlen' : (vals.map (castTo dtype)).length = mat.length := by
        simpa using hlen
      have hset : setColumn mat ny iy (vals.map (castTo dtype)) =
          .ok (List.zipWith (fun row v => row.set iy v) mat (vals.map (castTo dtype))) := by
        unfold setColumn
        rw [if_neg (Nat.not_le_of_lt hiy), if_pos hlen']
      have hmat1len : (List.zipWith (fun row v => row.set iy v) mat
          (vals.map (castTo dtype))).length = mat.length := by
        simp [List.length_zipWith, hlen']
      obtain ⟨logs', mat', hdl, hlen'', huntouched⟩ :=
        ih (iy + 1) (List.zipWith (fun row v => row.set iy v) mat (vals.map (castTo dtype)))
          (logs ++ [Sev.debug])
          (by
            intro l' hl' hc''
            obtain ⟨vals', h1, h2⟩ := hrows l' (List.mem_cons_of_mem l hl') hc''
            exact ⟨vals', h1, by rw [h2, hmat1len]⟩)
          (by omega)
      refine ⟨logs', mat', ?_, hlen''.trans hmat1len, ?_⟩
      · simp only [decodeLoop, if_neg hc, hrow, hset]
        rw [hdl]
        have heq : iy + 1 + countNC ls = iy + (countNC ls + 1) := by omega
        rw [heq]
      · intro i j hj
        have h1 : entry? mat' i j = entry? (List.zipWith (fun row v => row.set iy v) mat
            (vals.map (castTo dtype))) i j := huntouched i j (by omega)
        rw [h1]
        exact zipWith_set_entry iy j (by omega) mat (vals.map (castTo dtype)) i hlen'

/-- C5: a file declaring `ny` data rows but holding fewer decodes
without an error, and every row of the result that no data line filled
holds only the zero value of the inferred dtype. -/
theorem claim_C5_missing_rows_zero (x : XPM) (file rest : File)
    (nx ny nc nb : Int) (clogs : List Sev) (rawPairs : List (PyStr × PyStr)) (r2 : File)
    (h1 : findMarker file = some rest)
    (h2 : parse4Ints (unquote (readline rest).1) = .ok (nx, ny, nc, nb))
    (h3 : buildColors nc.toNat (readline rest).2 = (clogs, .ok rawPairs, r2))
    (hnb : nb ≠ 0)
    (hpos : ¬(nx.fdiv nb < 0 ∨ ny < 0))
    (hrows : ∀ l ∈ r2, isCommentLine l = false →
      ∃ vals, decodeRow (paletteOf x.autoconvert rawPairs) nx nb (unquote l) = .ok vals ∧
        vals.length = (nx.fdiv nb).toNat)
    (hcount : countNC r2 < ny.toNat) :
    ∃ logs mat,
      XPM.parse x file = some ({ x with array := some mat }, none, logs) ∧
        ∀ i j, countNC r2 ≤ j → j < ny.toNat → i < mat.length →
          entry? mat i j =
            some (zeroOf (dtypeOf (paletteOf x.autoconvert rawPairs))) := by
  obtain ⟨logs', mat', hdl, hmlen, huntouched⟩ :=
    decodeLoop_fill (paletteOf x.autoconvert rawPairs)
      (dtypeOf (paletteOf x.autoconvert rawPairs)) nx nb ny.toNat r2 0
      (zerosMat (nx.fdiv nb).toNat ny.toNat (dtypeOf (paletteOf x.autoconvert rawPairs)))
      ((clogs ++ (if x.autoconvert then [Sev.debug] else []) ++ [Sev.debug]) ++ [Sev.debug])
      (by
        intro l hl hcl
        obtain ⟨vals, hv1, hv2⟩ := hrows l hl hcl
        refine ⟨vals, hv1, ?_⟩
        rw [hv2]
        simp [zerosMat])
      (by omega)
  have hpb : parseBody x.autoconvert rest = (logs', .ok mat') := by
    simp only [parseBody, h2, h3]
    rw [if_neg hnb, if_neg hpos]
    rw [hdl]
  refine ⟨logs', mat', parse_ok_eq x file rest logs' mat' h1 hpb, ?_⟩
  intro i j hj1 hj2 hi
  rw [huntouched i j (by omega)]
  have hi' : i < (nx.fdiv nb).toNat := by
    rw [hmlen] at hi
    simpa [zerosMat] using hi
  simp [entry?, zerosMat, List.getElem?_replicate, hi', hj2]

/-- Witness for C5 at a fixture declaring ny=3 with one data row. -/
theorem claim_C5_missing_rows_zero_witness :
    ∃ logs mat,
      XPM.parse xpm0 fileC5short = some ({ xpm0 with array := some mat }, none, logs) ∧
        ∀ i j, countNC [(" o\",\n".toList)] ≤ j → j < (3 : Int).toNat → i < mat.length →
          entry? mat i j =
            some (zeroOf (dtypeOf (paletteOf xpm0.autoconvert
              [([' '], ['0']), (['o'], ['1'])]))) := by
  have h := claim_C5_missing_rows_zero xpm0 fileC5short (fileC5short.drop 2)
    2 3 2 1 [Sev.debug, Sev.debug] [([' '], ['0']), (['o'], ['1'])]
    ["\" o\",\n".toList] rfl rfl rfl (by decide) (by decide)
    (by
      intro l hl _
      rcases List.mem_singleton.mp hl with rfl
      exact ⟨[Value.int 0, Value.int 1], rfl, rfl⟩)
    (by decide)
  obtain ⟨logs, mat, hp, hz⟩ := h
  exact ⟨logs, mat, hp, fun i j hj1 hj2 hi => hz i j (by simpa [countNC] using hj1) hj2 hi⟩

/-! ## Lookup failures during row decode -/

theorem lookupRow_err (colors : List (PyStr × Value)) (s : PyStr) (nb : Int) :
    ∀ ks : List Int, (∃ k ∈ ks, dictFind colors (pySlice s k (k + nb)) = none) →
    lookupRow colors s nb ks = .error .keyError := by
  intro ks
  induction ks with
  | nil => rintro ⟨k, hk, _⟩; cases hk
  | cons k0 ks ih =>
    rintro ⟨k, hk, hnone⟩
    rcases List.mem_cons.mp hk with rfl | hk'
    · simp [lookupRow, hnone]
    · cases hfind : dictFind colors (pySlice s k0 (k0 + nb)) with
      | none => simp [lookupRow, hfind]
      | some v =>
        simp only [lookupRow, hfind]
        rw [ih ⟨k, hk', hnone⟩]
        rfl

/-- A decode that reaches a data row whose decode raises, raises that
error from `parse` and leaves the container unchanged. -/
theorem parse_row_error (x : XPM) (file rest : File) (nx ny nc nb : Int)
    (clogs lgp : List Sev) (rawPairs : List (PyStr × PyStr)) (pre post : File)
    (l : PyStr) (matp : Mat) (iyp : Nat) (e : PyErr)
    (h1 : findMarker file = some rest)
    (h2 : parse4Ints (unquote (readline rest).1) = .ok (nx, ny, nc, nb))
    (h3 : buildColors nc.toNat (readline rest).2 = (clogs, .ok rawPairs, pre ++ l :: post))
    (hnb : nb ≠ 0)
    (hpos : ¬(nx.fdiv nb < 0 ∨ ny < 0))
    (hpre : decodeLoop (paletteOf x.autoconvert rawPairs)
        (dtypeOf (paletteOf x.autoconvert rawPairs)) nx nb ny.toNat pre 0
        (zerosMat (nx.fdiv nb).toNat ny.toNat (dtypeOf (paletteOf x.autoconvert rawPairs)))
        [] = (lgp, .ok (matp, iyp)))
    (hc : isCommentLine l = false)
    (hrow : decodeRow (paletteOf x.autoconvert rawPairs) nx nb (unquote l) = .error e) :
    ∃ logs, XPM.parse x file = some (x, some e, logs) := by
  have hpre' : decodeLoop (paletteOf x.autoconvert rawPairs)
      (dtypeOf (paletteOf x.autoconvert rawPairs)) nx nb ny.toNat pre 0
      (zerosMat (nx.fdiv nb).toNat ny.toNat (dtypeOf (paletteOf x.autoconvert rawPairs)))
      ((clogs ++ (if x.autoconvert then [Sev.debug] else []) ++ [Sev.debug]) ++ [Sev.debug]) =
      (((clogs ++ (if x.autoconvert then [Sev.debug] else []) ++ [Sev.debug]) ++ [Sev.debug])
        ++ lgp, .ok (matp, iyp)) := by
    rw [decodeLoop_logs, hpre]
  have hfull : decodeLoop (paletteOf x.autoconvert rawPairs)
      (dtypeOf (paletteOf x.autoconvert rawPairs)) nx nb ny.toNat (pre ++ l :: post) 0
      (zerosMat (nx.fdiv nb).toNat ny.toNat (dtypeOf (paletteOf x.autoconvert rawPairs)))
      ((clogs ++ (if x.autoconvert then [Sev.debug] else []) ++ [Sev.debug]) ++ [Sev.debug]) =
      (((clogs ++ (if x.autoconvert then [Sev.debug] else []) ++ [Sev.debug]) ++ [Sev.debug])
        ++ lgp, .error e) := by
    rw [decodeLoop_append, hpre']
    simp only [decodeLoop, if_neg (by simp [hc] : ¬isCommentLine l = true), hrow]
  have hpb : parseBody x.autoconvert rest =
      ((((clogs ++ (if x.autoconvert then [Sev.debug] else []) ++ [Sev.debug]) ++ [Sev.debug])
        ++ lgp), .error e) := by
    simp only [parseBody, h2, h3]
    rw [if_neg hnb, if_neg hpos]
    rw [hfull]
  exact ⟨_, parse_error_eq x file rest _ e h1 hpb⟩

/-- C4: a data row holding a symbol substring that the palette does not
map raises `KeyError` from the row decode; no default value is written
and the container's array keeps its previous value. -/
theorem claim_C4_unknown_symbol (x : XPM) (file rest : File) (nx ny nc nb : Int)
    (clogs lgp : List Sev) (rawPairs : List (PyStr × PyStr)) (pre post : File)
    (l : PyStr) (matp : Mat) (iyp : Nat)
    (h1 : findMarker file = some rest)
    (h2 : parse4Ints (unquote (readline rest).1) = .ok (nx, ny, nc, nb))
    (h3 : buildColors nc.toNat (readline rest).2 = (clogs, .ok rawPairs, pre ++ l :: post))
    (hnb : nb ≠ 0)
    (hpos : ¬(nx.fdiv nb < 0 ∨ ny < 0))
    (hpre : decodeLoop (paletteOf x.autoconvert rawPairs)
        (dtypeOf (paletteOf x.autoconvert rawPairs)) nx nb ny.toNat pre 0
        (zerosMat (nx.fdiv nb).toNat ny.toNat (dtypeOf (paletteOf x.autoconvert rawPairs)))
        [] = (lgp, .ok (matp, iyp)))
    (hc : isCommentLine l = false)
    (hmiss : ∃ k ∈ pyRangeKs nx nb,
      dictFind (paletteOf x.autoconvert rawPairs) (pySlice (unquote l) k (k + nb)) = none) :
    ∃ logs, XPM.parse x file = some (x, some PyErr.keyError, logs) :=
  parse_row_error x file rest nx ny nc nb clogs lgp rawPairs pre post l matp iyp
    PyErr.keyError h1 h2 h3 hnb hpos hpre hc
    (lookupRow_err (paletteOf x.autoconvert rawPairs) (unquote l) nb (pyRangeKs nx nb) hmiss)

/-- Witness for C4: the second data row holds the unknown symbol `x`. -/
theorem claim_C4_unknown_symbol_witness :
    ∃ logs, XPM.parse xpm0 fileC4unknown = some (xpm0, some PyErr.keyError, logs) :=
  claim_C4_unknown_symbol xpm0 fileC4unknown (fileC4unknown.drop 2) 2 2 2 1
    [Sev.debug, Sev.debug] [Sev.debug] [([' '], ['0']), (['o'], ['1'])]
    ["\" o\",\n".toList] [] ("\"xo\"\x7d;\n".toList)
    [[Value.int 0, Value.int 0], [Value.int 1, Value.int 0]] 1
    rfl rfl rfl (by decide) (by decide) rfl rfl
    ⟨0, by decide, rfl⟩

/-- C10: a data row shorter than the declared width produces a stride
slice that is empty or truncated; such a slice is no palette key, and
the row decode raises `KeyError` instead of zero-filling the missing
trailing columns. -/
theorem claim_C10_short_row (x : XPM) (file rest : File) (nx ny nc nb : Int)
    (clogs lgp : List Sev) (rawPairs : List (PyStr × PyStr)) (pre post : File)
    (l : PyStr) (matp : Mat) (iyp : Nat)
    (h1 : findMarker file = some rest)
    (h2 : parse4Ints (unquote (readline rest).1) = .ok (nx, ny, nc, nb))
    (h3 : buildColors nc.toNat (readline rest).2 = (clogs, .ok rawPairs, pre ++ l :: post))
    (hnb : nb ≠ 0)
    (hpos : ¬(nx.fdiv nb < 0 ∨ ny < 0))
    (hpre : decodeLoop (paletteOf x.autoconvert rawPairs)
        (dtypeOf (paletteOf x.autoconvert rawPairs)) nx nb ny.toNat pre 0
        (zerosMat (nx.fdiv nb).toNat ny.toNat (dtypeOf (paletteOf x.autoconvert rawPairs)))
        [] = (lgp, .ok (matp, iyp)))
    (hc : isCommentLine l = false)
    (hshort : ∃ k ∈ pyRangeKs nx nb,
      (pySlice (unquote l) k (k + nb)).length < nb.toNat ∧
      dictFind (paletteOf x.autoconvert rawPairs) (pySlice (unquote l) k (k + nb)) = none) :
    ∃ logs, XPM.parse x file = some (x, some PyErr.keyError, logs) := by
  obtain ⟨k, hk, _, hnone⟩ := hshort
  exact parse_row_error x file rest nx ny nc nb clogs lgp rawPairs pre post l matp iyp
    PyErr.keyError h1 h2 h3 hnb hpos hpre hc
    (lookupRow_err (paletteOf x.autoconvert rawPairs) (unquote l) nb (pyRangeKs nx nb)
      ⟨k, hk, hnone⟩)

/-- Witness for C10: nx=3 declared, the only data row holds two
symbols, so the slice at k=2 is empty. -/
theorem claim_C10_short_row_witness :
    ∃ logs, XPM.parse xpm0 fileC10short = some (xpm0, some PyErr.keyError, logs) :=
  claim_C10_short_row xpm0 fileC10short (fileC10short.drop 2) 3 2 2 1
    [Sev.debug, Sev.debug] [] [([' '], ['0']), (['o'], ['1'])]
    [] [] ("\" o\",\n".toList) (zerosMat 3 2 DTag.int) 0
    rfl rfl rfl (by decide) (by decide) rfl rfl
    ⟨2, by decide, by decide, rfl⟩

/-! ## Palette keys are single characters, so a non-unit stride cannot
silently truncate: it fails the dictionary lookup -/

theorem buildColors_keylen :
    ∀ (n : Nat) (ls : File) (clogs : List Sev) (raws : List (PyStr × PyStr)) (r2 : File),
    buildColors n ls = (clogs, .ok raws, r2) → ∀ kv ∈ raws, kv.1.length = 1 := by
  intro n
  induction n with
  | zero =>
    intro ls clogs raws r2 h kv hkv
    simp only [buildColors, Prod.mk.injEq, Except.ok.injEq] at h
    obtain ⟨-, h, -⟩ := h
    subst h
    cases hkv
  | succ n ih =>
    intro ls clogs raws r2 h kv hkv
    simp only [buildColors] at h
    cases hm : colourMatch (readline ls).1 with
    | none => simp only [col, hm] at h; simp at h
    | some sv =>
      rcases sv with ⟨c, v⟩
      simp only [col, hm] at h
      rcases hbc : buildColors n (readline ls).2 with ⟨lgs, res, ls''⟩
      rw [hbc] at h
      cases res with
      | error e => simp [Except.map] at h
      | ok es =>
        simp only [Except.map, Prod.mk.injEq, Except.ok.injEq] at h
        obtain ⟨-, h, -⟩ := h
        subst h
        rcases List.mem_cons.mp hkv with rfl | hkv'
        · rfl
        · exact ih (readline ls).2 lgs es ls'' hbc kv hkv'

theorem dictInsert_keys {β : Type} (p : PyStr → Prop) :
    ∀ (d : List (PyStr × β)) (k : PyStr) (v : β),
    (∀ kv ∈ d, p kv.1) → p k → ∀ kv ∈ dictInsert d k v, p kv.1 := by
  intro d
  induction d with
  | nil =>
    intro k v _ hk kv hkv
    simp only [dictInsert, List.mem_singleton] at hkv
    subst hkv
    exact hk
  | cons kv0 r ih =>
    intro k v hd hk kv hkv
    rcases kv0 with ⟨k', v'⟩
    by_cases he : k' = k
    · simp only [dictInsert, if_pos he] at hkv
      rcases List.mem_cons.mp hkv with rfl | hkv'
      · exact hd (k', v') (List.mem_cons_self _ _)
      · exact hd kv (List.mem_cons_of_mem _ hkv')
    · simp only [dictInsert, if_neg he] at hkv
      rcases List.mem_cons.mp hkv with rfl | hkv'
      · exact hd (k', v') (List.mem_cons_self _ _)
      · exact ih k v (fun kv' h => hd kv' (List.mem_cons_of_mem _ h)) hk kv hkv'

theorem foldl_dictInsert_keys {β : Type} (p : PyStr → Prop) :
    ∀ (l d : List (PyStr × β)), (∀ kv ∈ d, p kv.1) → (∀ kv ∈ l, p kv.1) →
    ∀ kv ∈ l.foldl (fun d kv => dictInsert d kv.1 kv.2) d, p kv.1 := by
  intro l
  induction l with
  | nil => intro d hd _ kv hkv; exact hd kv hkv
  | cons a l ih =>
    intro d hd hl kv hkv
    simp only [List.foldl_cons] at hkv
    refine ih (dictInsert d a.1 a.2)
      (dictInsert_keys p d a.1 a.2 hd (hl a (List.mem_cons_self _ _)))
      (fun kv' h => hl kv' (List.mem_cons_of_mem _ h)) kv hkv

theorem paletteOf_keylen (ac : Bool) (raws : List (PyStr × PyStr))
    (h : ∀ kv ∈ raws, kv.1.length = 1) :
    ∀ kv ∈ paletteOf ac raws, kv.1.length = 1 := by
  intro kv hkv
  have hbase : ∀ kv' ∈ dictOfList (raws.map (fun kv => (kv.1, Value.str kv.2))),
      kv'.1.length = 1 := by
    intro kv' hkv'
    unfold dictOfList at hkv'
    exact foldl_dictInsert_keys (fun k => k.length = 1)
      (raws.map (fun kv => (kv.1, Value.str kv.2))) []
      (fun kv'' h'' => absurd h'' (List.not_mem_nil _))
      (fun kv'' hkv'' => by
        obtain ⟨kv3, hkv3, rfl⟩ := List.mem_map.mp hkv''
        exact h kv3 hkv3) kv' hkv'
  unfold paletteOf at hkv
  cases ac with
  | false => exact hbase kv (by simpa using hkv)
  | true =>
    simp only [if_pos rfl] at hkv
    obtain ⟨kv', hkv', rfl⟩ := List.mem_map.mp hkv
    exact hbase kv' hkv'

theorem dictFind_len_ne {β : Type} :
    ∀ (d : List (PyStr × β)), (∀ kv ∈ d, kv.1.length = 1) →
    ∀ s : PyStr, s.length ≠ 1 → dictFind d s = none := by
  intro d
  induction d with
  | nil => intro _ s _; rfl
  | cons kv0 r ih =>
    intro hd s hs
    rcases kv0 with ⟨k, v⟩
    have hk : k.length = 1 := hd (k, v) (List.mem_cons_self _ _)
    have hne : k ≠ s := fun h => hs (h ▸ hk)
    simp only [dictFind, if_neg hne]
    exact ih (fun kv h => hd kv (List.mem_cons_of_mem _ h)) s hs

theorem zero_mem_pyRangeKs (nx nb : Int) (hnb : 2 ≤ nb) (hnx : 1 ≤ nx) :
    (0 : Int) ∈ pyRangeKs nx nb := by
  have hlen : 0 < pyRangeLen nx nb := by
    unfold pyRangeLen
    rw [if_pos (by omega)]
    rw [Int.fdiv_eq_ediv _ (by omega)]
    have : (1 : Int) ≤ (nx + nb - 1) / nb := by
      rw [Int.le_ediv_iff_mul_le (by omega)]
      omega
    omega
  unfold pyRangeKs
  have h00 : (0 : Int) = nb * ((0 : Nat) : Int) := by simp
  rw [h00]
  exact List.mem_map_of_mem (fun i : Nat => nb * (i : Int)) (List.mem_range.mpr hlen)

theorem length_pySlice_zero (s : PyStr) (nb : Int) (hnb : 0 ≤ nb) :
    (pySlice s 0 nb).length = min nb.toNat s.length := by
  have h0 : sliceClamp s.length 0 = 0 := by simp [sliceClamp]
  have h1 : sliceClamp s.length nb = nb.toNat.min s.length := by
    simp [sliceClamp, Int.not_lt.mpr hnb]
  simp [pySlice, h0, h1, List.length_take]

/-- C2, the part that fails: the claim asserts an error-free decode with
silent truncation when `nb` does not divide `nx`; on the concrete file
(nx=3, nb=2, one full row) `parse` instead raises `KeyError` — every
palette key is a single character, while the stride slice `s[0:2]` holds
two. -/
theorem claim_C2_counterexample :
    XPM.parse xpm0 fileC2bad =
      some (xpm0, some PyErr.keyError,
        [Sev.debug, Sev.debug, Sev.debug, Sev.debug, Sev.debug]) := rfl

/-- C2, amended: when the stride `nb` does not evenly divide the width
`nx` (so `nb ≥ 2`) and a data row of `nx ≥ 2` symbols is reached, the
decode does not silently truncate the row: the first stride slice has at
least two characters, no single-character palette key matches it, and
`parse` raises `KeyError`, leaving the container unchanged. -/
theorem claim_C2_no_silent_truncation (x : XPM) (file rest : File) (nx ny nc nb : Int)
    (clogs lgp : List Sev) (rawPairs : List (PyStr × PyStr)) (pre post : File)
    (l : PyStr) (matp : Mat) (iyp : Nat)
    (h1 : findMarker file = some rest)
    (h2 : parse4Ints (unquote (readline rest).1) = .ok (nx, ny, nc, nb))
    (h3 : buildColors nc.toNat (readline rest).2 = (clogs, .ok rawPairs, pre ++ l :: post))
    (hnb0 : 0 < nb)
    (hndvd : ¬ nb ∣ nx)
    (hnx2 : 2 ≤ nx)
    (hpos : ¬(nx.fdiv nb < 0 ∨ ny < 0))
    (hpre : decodeLoop (paletteOf x.autoconvert rawPairs)
        (dtypeOf (paletteOf x.autoconvert rawPairs)) nx nb ny.toNat pre 0
        (zerosMat (nx.fdiv nb).toNat ny.toNat (dtypeOf (paletteOf x.autoconvert rawPairs)))
        [] = (lgp, .ok (matp, iyp)))
    (hc : isCommentLine l = false)
    (hrowlen : (unquote l).length = nx.toNat) :
    ∃ logs, XPM.parse x file = some (x, some PyErr.keyError, logs) := by
  have hnb1 : nb ≠ 1 := fun h => hndvd (h ▸ one_dvd nx)
  have hnb2 : 2 ≤ nb := by omega
  have hkeys : ∀ kv ∈ paletteOf x.autoconvert rawPairs, kv.1.length = 1 :=
    paletteOf_keylen x.autoconvert rawPairs
      (buildColors_keylen nc.toNat (readline rest).2 clogs rawPairs (pre ++ l :: post) h3)
  have hlen : (pySlice (unquote l) 0 (0 + nb)).length = min nb.toNat nx.toNat := by
    rw [zero_add, length_pySlice_zero (unquote l) nb (by omega), hrowlen]
  have hne1 : (pySlice (unquote l) 0 (0 + nb)).length ≠ 1 := by
    rw [hlen]
    have h2le : 2 ≤ nb.toNat := by omega
    have h2le' : 2 ≤ nx.toNat := by omega
    omega
  have hnone : dictFind (paletteOf x.autoconvert rawPairs)
      (pySlice (unquote l) 0 (0 + nb)) = none :=
    dictFind_len_ne (paletteOf x.autoconvert rawPairs) hkeys _ hne1
  exact parse_row_error x file rest nx ny nc nb clogs lgp rawPairs pre post l matp iyp
    PyErr.keyError h1 h2 h3 (by omega) hpos hpre hc
    (lookupRow_err (paletteOf x.autoconvert rawPairs) (unquote l) nb (pyRangeKs nx nb)
      ⟨0, zero_mem_pyRangeKs nx nb hnb2 (by omega), hnone⟩)

/-- Witness for the amended C2 at the concrete file (nx=3, nb=2). -/
theorem claim_C2_no_silent_truncation_witness :
    ∃ logs, XPM.parse xpm0 fileC2bad = some (xpm0, some PyErr.keyError, logs) :=
  claim_C2_no_silent_truncation xpm0 fileC2bad (fileC2bad.drop 2) 3 2 2 2
    [Sev.debug, Sev.debug] [] [([' '], ['0']), (['o'], ['1'])]
    [] [] ("\" oo\",\n".toList) (zerosMat 1 2 DTag.int) 0
    rfl rfl rfl (by decide) (by decide) (by decide) (by decide) rfl rfl rfl

/-! ## Aborts in the header and palette phases -/

/-- A palette-block line that fails the legend pattern makes the block
raise `ParseError`, with a fatal log record emitted first. -/
theorem buildColors_fail :
    ∀ (n : Nat) (ls : File),
    (∃ l ∈ readLines n ls, colourMatch l = none) →
    ∃ lgs r2, buildColors n ls = (lgs, .error .parseError, r2) ∧ Sev.fatal ∈ lgs := by
  intro n
  induction n with
  | zero =>
    rintro ls ⟨l, hl, _⟩
    simp [readLines] at hl
  | succ n ih =>
    rintro ls ⟨l, hl, hnone⟩
    cases hm : colourMatch (readline ls).1 with
    | none =>
      refine ⟨[Sev.fatal], (readline ls).2, ?_, by simp⟩
      simp [buildColors, col, hm]
    | some sv =>
      rcases sv with ⟨c, v⟩
      simp only [readLines] at hl
      rcases List.mem_cons.mp hl with rfl | hl'
      · rw [hm] at hnone; cases hnone
      · obtain ⟨lgs, r2, hb, hf⟩ := ih (readline ls).2 ⟨l, hl', hnone⟩
        refine ⟨Sev.debug :: lgs, r2, ?_, List.mem_cons_of_mem _ hf⟩
        simp [buildColors, col, hm, hb, Except.map]

/-- C7: when any line of the palette block fails the legend pattern,
`XPM.col` logs at fatal severity and raises `ParseError`; the whole
decode aborts and the container's array is unchanged. -/
theorem claim_C7_bad_legend_aborts (x : XPM) (file rest : File) (nx ny nc nb : Int)
    (h1 : findMarker file = some rest)
    (h2 : parse4Ints (unquote (readline rest).1) = .ok (nx, ny, nc, nb))
    (hbad : ∃ l ∈ readLines nc.toNat (readline rest).2, colourMatch l = none) :
    ∃ logs, XPM.parse x file = some (x, some PyErr.parseError, logs) ∧ Sev.fatal ∈ logs := by
  obtain ⟨lgs, r2, hb, hf⟩ := buildColors_fail nc.toNat (readline rest).2 hbad
  have hpb : parseBody x.autoconvert rest = (lgs, .error .parseError) := by
    simp only [parseBody, h2, hb]
  exact ⟨lgs, parse_error_eq x file rest lgs .parseError h1 hpb, hf⟩

/-- Witness for C7: the second palette line reads `bogus`. -/
theorem claim_C7_bad_legend_aborts_witness :
    ∃ logs, XPM.parse xpm0 fileC7bad = some (xpm0, some PyErr.parseError, logs) ∧
      Sev.fatal ∈ logs :=
  claim_C7_bad_legend_aborts xpm0 fileC7bad (fileC7bad.drop 1) 2 2 2 1
    rfl rfl ⟨"bogus\n".toList, by decide, rfl⟩

/-- C8, amended: a dimension line that does not yield exactly four
integers raises `ValueError` before the palette is read or the matrix
allocated, the decode aborts with the container unchanged — but nothing
is logged for this failure (the raised `ValueError` comes straight from
`int()`/tuple unpacking, with no `logger` call, unlike legend-line
failures). -/
theorem claim_C8_dim_error_before_alloc (x : XPM) (file rest : File) (e : PyErr)
    (h1 : findMarker file = some rest)
    (h2 : parse4Ints (unquote (readline rest).1) = .error e) :
    XPM.parse x file = some (x, some e, []) := by
  have hpb : parseBody x.autoconvert rest = ([], .error e) := by
    simp only [parseBody, h2]
  exact parse_error_eq x file rest [] e h1 hpb

/-- C8, the part that fails: on a concrete file whose dimension line
holds three integers, `parse` raises `ValueError` with an empty log
trace — no record at fatal (or any) severity is emitted before the
raise, contradicting the claim that the error is logged. -/
theorem claim_C8_counterexample :
    XPM.parse xpm0 fileC8bad = some (xpm0, some PyErr.valueError, []) ∧
      Sev.fatal ∉ ([] : List Sev) :=
  ⟨rfl, by simp⟩

/-- Witness for the amended C8 at the same concrete file. -/
theorem claim_C8_dim_error_before_alloc_witness :
    XPM.parse xpm0 fileC8bad = some (xpm0, some PyErr.valueError, []) :=
  claim_C8_dim_error_before_alloc xpm0 fileC8bad (fileC8bad.drop 2) PyErr.valueError rfl rfl

/-! ## The hand-built round-trip fixture -/

/-- C3, the part that fails: on the fixture exactly as the claim states
it (nx=4 with two-symbol rows `" o"`, `"o "`), the row decode slices
`s[2:3]` and `s[3:4]` are empty strings, no palette key matches, and
`parse` raises `KeyError` instead of producing `[[0,1],[1,0]]`. -/
theorem claim_C3_counterexample :
    XPM.parse xpm0 fileC3stated =
      some (xpm0, some PyErr.keyError,
        [Sev.debug, Sev.debug, Sev.debug, Sev.debug, Sev.debug]) := rfl

/-- C3, amended: with the width consistent with the two-symbol rows
(nx=2, ny=2, nc=2, nb=1, palette `' '↦"0"`, `'o'↦"1"`, rows `" o"`,
`"o "`), `parse` decodes to `[[0,1],[1,0]]`, and the palette's inferred
dtype is the integer kind, so the entries are machine integers. -/
theorem claim_C3_roundtrip :
    XPM.parse xpm0 fileGood =
        some ({ xpm0 with array := some [[Value.int 0, Value.int 1], [Value.int 1, Value.int 0]] },
          none, List.replicate 7 Sev.debug) ∧
      dtypeOf (paletteOf true [([' '], ['0']), (['o'], ['1'])]) = DTag.int :=
  ⟨rfl, rfl⟩

/-! ## The legend regular expression on well-formed and adversarial
lines -/

theorem ws_not_hex (c : Char) (h : isPyWs c = true) : isHexU c = false := by
  simp only [isPyWs, decide_eq_true_eq] at h
  rcases h with rfl | rfl | rfl | rfl | rfl | rfl <;> decide

theorem ws_ne_quote (c : Char) (h : isPyWs c = true) : c ≠ '"' := by
  simp only [isPyWs, decide_eq_true_eq] at h
  rcases h with rfl | rfl | rfl | rfl | rfl | rfl <;> decide

theorem ws_ne_slash (c : Char) (h : isPyWs c = true) : c ≠ '/' := by
  simp only [isPyWs, decide_eq_true_eq] at h
  rcases h with rfl | rfl | rfl | rfl | rfl | rfl <;> decide

theorem hex_ne_quote (c : Char) (h : isHexU c = true) : c ≠ '"' := by
  simp only [isHexU, decide_eq_true_eq] at h
  intro he
  subst he
  rcases h with ⟨h1, h2⟩ | ⟨h1, h2⟩ <;> revert h1 h2 <;> decide

theorem hex_ne_slash (c : Char) (h : isHexU c = true) : c ≠ '/' := by
  simp only [isHexU, decide_eq_true_eq] at h
  intro he
  subst he
  rcases h with ⟨h1, h2⟩ | ⟨h1, h2⟩ <;> revert h1 h2 <;> decide

theorem sym_ne_quote (c : Char) (h : symClass c = true) : c ≠ '"' := by
  simp only [symClass, decide_eq_true_eq] at h
  intro he
  subst he
  rcases h with h | ⟨h1, h2⟩ | ⟨h1, h2⟩ <;> first | cases h | (revert h1 h2; decide)

theorem sym_ne_slash (c : Char) (h : symClass c = true) : c ≠ '/' := by
  simp only [symClass, decide_eq_true_eq] at h
  intro he
  subst he
  rcases h with h | ⟨h1, h2⟩ | ⟨h1, h2⟩ <;> first | cases h | (revert h1 h2; decide)

theorem dropWhile_all_append (p : Char → Bool) :
    ∀ (xs r : PyStr), xs.all p = true → (xs ++ r).dropWhile p = r.dropWhile p := by
  intro xs
  induction xs with
  | nil => intro r _; rfl
  | cons a t ih =>
    intro r hall
    rw [List.all_cons, Bool.and_eq_true] at hall
    simp [List.dropWhile_cons, hall.1, ih r hall.2]

theorem dropWhile_all_append_cons (p : Char → Bool) (xs : PyStr) (y : Char) (r : PyStr)
    (hall : xs.all p = true) (hy : p y = false) :
    (xs ++ y :: r).dropWhile p = y :: r := by
  rw [dropWhile_all_append p xs _ hall]
  simp [List.dropWhile_cons, hy]

theorem dropWhile1_all_cons (p : Char → Bool) (xs : PyStr) (y : Char) (r : PyStr)
    (hne : xs ≠ []) (hall : xs.all p = true) (hy : p y = false) :
    dropWhile1 p (xs ++ y :: r) = some (y :: r) := by
  cases xs with
  | nil => cases hne rfl
  | cons a t =>
    rw [List.all_cons, Bool.and_eq_true] at hall
    simp only [List.cons_append, dropWhile1, if_pos hall.1]
    rw [dropWhile_all_append_cons p t y r hall.2 hy]

theorem takeWhile_all_append (p : Char → Bool) :
    ∀ (xs r : PyStr), xs.all p = true → (xs ++ r).takeWhile p = xs ++ r.takeWhile p := by
  intro xs
  induction xs with
  | nil => intro r _; rfl
  | cons a t ih =>
    intro r hall
    rw [List.all_cons, Bool.and_eq_true] at hall
    simp [List.takeWhile_cons, hall.1, ih r hall.2]

theorem all_ne_quote_of_ws (ws : PyStr) (h : ws.all isPyWs = true) :
    ws.all (fun ch => ch ≠ '"') = true := by
  rw [List.all_eq_true] at h ⊢
  intro c hc
  simpa using ws_ne_quote c (h c hc)

theorem dropWhile_hex_stops (ws3 : PyStr) (R : PyStr) (hw3 : ws3.all isPyWs = true) :
    (ws3 ++ '"' :: R).dropWhile isHexU = ws3 ++ '"' :: R := by
  cases ws3 with
  | nil =>
    simp only [List.nil_append]
    rw [List.dropWhile_cons, if_neg (by decide : ¬ isHexU '"' = true)]
  | cons a t =>
    rw [List.all_cons, Bool.and_eq_true] at hw3
    simp [List.dropWhile_cons, ws_not_hex a hw3.1]

theorem matchAfterSym_structured (ws1 ws2 hex ws3 : PyStr) (R : PyStr)
    (hw1 : ws1 ≠ []) (hw1a : ws1.all isPyWs = true)
    (hw2 : ws2 ≠ []) (hw2a : ws2.all isPyWs = true)
    (hhex : hex ≠ []) (hhexa : hex.all isHexU = true)
    (hw3 : ws3.all isPyWs = true) :
    matchAfterSym (ws1 ++ 'c' :: (ws2 ++ '#' :: (hex ++ ws3 ++ '"' :: R))) = some R := by
  unfold matchAfterSym
  rw [dropWhile1_all_cons isPyWs ws1 'c' _ hw1 hw1a (by decide)]
  simp only []
  rw [dropWhile1_all_cons isPyWs ws2 '#' _ hw2 hw2a (by decide)]
  simp only []
  cases hex with
  | nil => cases hhex rfl
  | cons h0 ht =>
    rw [List.all_cons, Bool.and_eq_true] at hhexa
    simp only [List.cons_append, List.append_assoc, dropWhile1, if_pos hhexa.1]
    rw [dropWhile_all_append isHexU ht _ hhexa.2]
    rw [dropWhile_hex_stops ws3 R hw3]
    rw [dropWhile_all_append_cons isPyWs ws3 '"' R hw3 (by decide)]
    rfl

theorem matchComment_structured (ws4 ws5 : PyStr) (R : PyStr)
    (hw4 : ws4.all isPyWs = true) (hw5 : ws5.all isPyWs = true) :
    matchComment (ws4 ++ '/' :: '*' :: (ws5 ++ '"' :: R)) = some R := by
  unfold matchComment
  rw [dropWhile_all_append_cons isPyWs ws4 '/' _ hw4 (by decide)]
  simp only []
  rw [dropWhile_all_append_cons isPyWs ws5 '"' R hw5 (by decide)]
  rfl

theorem matchValue_structured (val tl : PyStr)
    (hvn : val.all (fun ch => ch ≠ '\n') = true)
    (htl : tl.all (fun ch => ch ≠ '"') = true) :
    matchValue (val ++ '"' :: tl) = some val := by
  unfold matchValue
  rw [takeWhile_all_append _ val _ hvn]
  rw [List.takeWhile_cons]
  rw [if_pos (by decide)]
  have hT : (tl.takeWhile (fun ch => ch ≠ '\n')).all (fun ch => ch ≠ '"') = true := by
    rw [List.all_eq_true] at htl ⊢
    intro c hc
    exact htl c (List.Sublist.mem hc (List.takeWhile_sublist _))
  have hTrev : (tl.takeWhile (fun ch => ch ≠ '\n')).reverse.all (fun ch => ch ≠ '"') = true := by
    rw [List.all_eq_true] at hT ⊢
    intro c hc
    exact hT c (List.mem_reverse.mp hc)
  rw [List.reverse_append, List.reverse_cons, List.append_assoc]
  rw [dropWhile_all_append _ _ _ hTrev]
  simp only [List.cons_append, List.nil_append, List.dropWhile_cons]
  rw [if_neg (by simp)]
  simp

theorem matchTail_structured (c : Char) (ws1 ws2 hex ws3 ws4 ws5 val tl : PyStr)
    (hc : symClass c = true)
    (hw1 : ws1 ≠ []) (hw1a : ws1.all isPyWs = true)
    (hw2 : ws2 ≠ []) (hw2a : ws2.all isPyWs = true)
    (hhex : hex ≠ []) (hhexa : hex.all isHexU = true)
    (hw3 : ws3.all isPyWs = true) (hw4 : ws4.all isPyWs = true)
    (hw5 : ws5.all isPyWs = true)
    (hvn : val.all (fun ch => ch ≠ '\n') = true)
    (htl : tl.all (fun ch => ch ≠ '"') = true) :
    matchTail (c :: (ws1 ++ 'c' :: (ws2 ++ '#' ::
      (hex ++ ws3 ++ '"' :: (ws4 ++ '/' :: '*' ::
        (ws5 ++ '"' :: (val ++ '"' :: tl))))))) = some (c, val) := by
  simp only [matchTail]
  rw [if_pos hc]
  rw [matchAfterSym_structured ws1 ws2 hex ws3 _ hw1 hw1a hw2 hw2a hhex hhexa hw3]
  simp only []
  rw [matchComment_structured ws4 ws5 _ hw4 hw5]
  simp only []
  rw [matchValue_structured val tl hvn htl]

theorem count_dropWhile_quote (p : Char → Bool) (hp : p '"' = false) :
    ∀ l : PyStr, countQ (l.dropWhile p) = countQ l := by
  intro l
  induction l with
  | nil => rfl
  | cons a t ih =>
    by_cases ha : p a
    · have hne : (a == '"') = false := by
        rw [beq_eq_false_iff_ne]
        intro he
        rw [he, hp] at ha
        cases ha
      rw [List.dropWhile_cons, if_pos ha, ih]
      simp [countQ, List.count_cons, hne]
    · rw [List.dropWhile_cons, if_neg ha]

theorem countQ_dropWhile1 (p : Char → Bool) (hp : p '"' = false) (l r : PyStr)
    (h : dropWhile1 p l = some r) : countQ l = countQ r := by
  cases l with
  | nil => cases h
  | cons a t =>
    simp only [dropWhile1] at h
    by_cases ha : p a
    · rw [if_pos ha] at h
      injection h with h
      subst h
      have hne : (a == '"') = false := by
        rw [beq_eq_false_iff_ne]
        intro he
        rw [he, hp] at ha
        cases ha
      rw [count_dropWhile_quote p hp t]
      simp [countQ, List.count_cons, hne]
    · rw [if_neg ha] at h
      cases h

theorem countQ_cons_ne (a : Char) (t : PyStr) (ha : a ≠ '"') :
    countQ (a :: t) = countQ t := by
  simp [countQ, List.count_cons, beq_eq_false_iff_ne.mpr ha]

theorem countQ_cons_quote (t : PyStr) : countQ ('"' :: t) = countQ t + 1 := by
  simp [countQ, List.count_cons]

theorem countQ_matchAfterSym (l r : PyStr) (h : matchAfterSym l = some r) :
    countQ l = countQ r + 1 := by
  unfold matchAfterSym at h
  cases h1 : dropWhile1 isPyWs l with
  | none => simp only [h1] at h; exact Option.noConfusion h
  | some r1 =>
    simp only [h1] at h
    have hc1 : countQ l = countQ r1 := countQ_dropWhile1 isPyWs (by decide) l r1 h1
    split at h
    · next r2 =>
      have hc2 : countQ ('c' :: r2) = countQ r2 := countQ_cons_ne 'c' r2 (by decide)
      cases h3 : dropWhile1 isPyWs r2 with
      | none => simp only [h3] at h; exact Option.noConfusion h
      | some r3 =>
        simp only [h3] at h
        have hc3 : countQ r2 = countQ r3 := countQ_dropWhile1 isPyWs (by decide) r2 r3 h3
        split at h
        · next r4 =>
          have hc4 : countQ ('#' :: r4) = countQ r4 := countQ_cons_ne '#' r4 (by decide)
          cases h5 : dropWhile1 isHexU r4 with
          | none => simp only [h5] at h; exact Option.noConfusion h
          | some r5 =>
            simp only [h5] at h
            have hc5 : countQ r4 = countQ r5 := countQ_dropWhile1 isHexU (by decide) r4 r5 h5
            split at h
            · next r6 heq =>
              injection h with h
              subst h
              have hc6 : countQ (r5.dropWhile isPyWs) = countQ r5 :=
                count_dropWhile_quote isPyWs (by decide) r5
              rw [heq, countQ_cons_quote] at hc6
              omega
            · next => cases h
        · next => cases h
    · next => cases h

theorem countQ_matchComment (l r : PyStr) (h : matchComment l = some r) :
    countQ l = countQ r + 1 := by
  unfold matchComment at h
  split at h
  · next r1 heq1 =>
    have hc1 : countQ (l.dropWhile isPyWs) = countQ l :=
      count_dropWhile_quote isPyWs (by decide) l
    rw [heq1] at hc1
    split at h
    · next r2 heq2 =>
      injection h with h
      subst h
      have hc2 : countQ (r1.dropWhile isPyWs) = countQ r1 :=
        count_dropWhile_quote isPyWs (by decide) r1
      rw [heq2, countQ_cons_quote] at hc2
      rw [countQ_cons_ne '/' _ (by decide), countQ_cons_ne '*' _ (by decide)] at hc1
      omega
    · next => cases h
  · next => cases h

theorem mem_of_getElem?_quote {l : PyStr} {i : Nat} {a : Char} (h : l[i]? = some a) :
    a ∈ l := by
  obtain ⟨hlt, heq⟩ := List.getElem?_eq_some.mp h
  exact heq ▸ List.getElem_mem hlt

theorem countQ_matchValue (l v : PyStr) (h : matchValue l = some v) :
    1 ≤ countQ l := by
  unfold matchValue at h
  split at h
  · next rest heq =>
    have hmem : '"' ∈ l := by
      have h1 : '"' ∈ (l.takeWhile (· ≠ '\n')).reverse.dropWhile (· ≠ '"') := by
        rw [heq]; exact List.mem_cons_self _ _
      have h2 : '"' ∈ (l.takeWhile (· ≠ '\n')).reverse :=
        List.Sublist.mem h1 (List.dropWhile_sublist _)
      have h3 : '"' ∈ l.takeWhile (· ≠ '\n') := List.mem_reverse.mp h2
      exact List.Sublist.mem h3 (List.takeWhile_sublist _)
    have := List.count_pos_iff.mpr hmem
    simpa [countQ] using this
  · next => cases h

theorem countQ_matchTail (l : PyStr) (p : Char × PyStr) (h : matchTail l = some p) :
    3 ≤ countQ l := by
  cases l with
  | nil => cases h
  | cons sym r =>
    simp only [matchTail] at h
    by_cases hs : symClass sym
    · rw [if_pos hs] at h
      cases h1 : matchAfterSym r with
      | none => simp only [h1] at h; exact Option.noConfusion h
      | some r8 =>
        simp only [h1] at h
        cases h2 : matchComment r8 with
        | none => simp only [h2] at h; exact Option.noConfusion h
        | some r12 =>
          simp only [h2] at h
          cases h3 : matchValue r12 with
          | none => simp only [h3] at h; exact Option.noConfusion h
          | some v =>
            have e1 := countQ_matchAfterSym r r8 h1
            have e2 := countQ_matchComment r8 r12 h2
            have e3 := countQ_matchValue r12 v h3
            have e0 : countQ (sym :: r) = countQ r :=
              countQ_cons_ne sym r (sym_ne_quote sym hs)
            omega
    · rw [if_neg hs] at h
      cases h

theorem quoteIdxAux_mem :
    ∀ (l : PyStr) (base j : Nat), j ∈ quoteIdxAux base l →
    base ≤ j ∧ l[j - base]? = some '"' := by
  intro l
  induction l with
  | nil => intro base j h; cases h
  | cons c r ih =>
    intro base j h
    by_cases hc : c = '"'
    · rw [quoteIdxAux, if_pos hc] at h
      rcases List.mem_cons.mp h with rfl | h'
      · refine ⟨Nat.le_refl j, ?_⟩
        rw [Nat.sub_self]
        simp [hc]
      · obtain ⟨hle, hget⟩ := ih (base + 1) j h'
        refine ⟨by omega, ?_⟩
        have he : j - base = (j - (base + 1)) + 1 := by omega
        rw [he]
        simpa using hget
    · rw [quoteIdxAux, if_neg hc] at h
      obtain ⟨hle, hget⟩ := ih (base + 1) j h
      refine ⟨by omega, ?_⟩
      have he : j - base = (j - (base + 1)) + 1 := by omega
      rw [he]
      simpa using hget

theorem getElem?_takeWhile (p : Char → Bool) :
    ∀ (l : PyStr) (i : Nat) (a : Char), (l.takeWhile p)[i]? = some a → l[i]? = some a := by
  intro l
  induction l with
  | nil => intro i a h; simp at h
  | cons c r ih =>
    intro i a h
    rw [List.takeWhile_cons] at h
    by_cases hc : p c
    · rw [if_pos hc] at h
      cases i with
      | zero => simpa using h
      | succ i =>
        simp only [List.getElem?_cons_succ] at h ⊢
        exact ih i a h
    · rw [if_neg hc] at h
      simp at h

theorem two_le_countQ_of_getElem (l : PyStr) (i j : Nat) (hij : i < j)
    (hi : l[i]? = some '"') (hj : l[j]? = some '"') : 2 ≤ countQ l := by
  have hsplit : countQ l = countQ (l.take (i + 1)) + countQ (l.drop (i + 1)) := by
    conv_lhs => rw [countQ, ← List.take_append_drop (i + 1) l]
    rw [List.count_append]
    rfl
  have h1 : 1 ≤ countQ (l.take (i + 1)) := by
    have : (l.take (i + 1))[i]? = some '"' := by
      rw [List.getElem?_take, if_pos (by omega)]
      exact hi
    have hmem := mem_of_getElem?_quote this
    have := List.count_pos_iff.mpr hmem
    simpa [countQ] using this
  have h2 : 1 ≤ countQ (l.drop (i + 1)) := by
    have : (l.drop (i + 1))[j - (i + 1)]? = some '"' := by
      rw [List.getElem?_drop]
      have he : i + 1 + (j - (i + 1)) = j := by omega
      rw [he]
      exact hj
    have hmem := mem_of_getElem?_quote this
    have := List.count_pos_iff.mpr hmem
    simpa [countQ] using this
  omega

theorem countQ_eq_zero_of_all (l : PyStr) (p : Char → Bool) (hp : p '"' = false)
    (h : l.all p = true) : countQ l = 0 := by
  rw [countQ, List.count_eq_zero]
  intro hmem
  have := List.all_eq_true.mp h '"' hmem
  rw [hp] at this
  cases this

theorem countQ_eq_zero_of_ne (l : PyStr) (h : l.all (fun ch => ch ≠ '"') = true) :
    countQ l = 0 := by
  rw [countQ, List.count_eq_zero]
  intro hmem
  have := List.all_eq_true.mp h '"' hmem
  simp at this

theorem countQ_mkLegend (c : Char) (ws1 ws2 hex ws3 ws4 ws5 val tl : PyStr)
    (hc : symClass c = true)
    (hw1a : ws1.all isPyWs = true) (hw2a : ws2.all isPyWs = true)
    (hhexa : hex.all isHexU = true)
    (hw3 : ws3.all isPyWs = true) (hw4 : ws4.all isPyWs = true)
    (hw5 : ws5.all isPyWs = true)
    (hvq : val.all (fun ch => ch ≠ '"') = true)
    (htl : tl.all (fun ch => ch ≠ '"') = true) :
    countQ (mkLegend c ws1 ws2 hex ws3 ws4 ws5 val tl) = 4 := by
  have z1 := countQ_eq_zero_of_all ws1 isPyWs (by decide) hw1a
  have z2 := countQ_eq_zero_of_all ws2 isPyWs (by decide) hw2a
  have zh := countQ_eq_zero_of_all hex isHexU (by decide) hhexa
  have z3 := countQ_eq_zero_of_all ws3 isPyWs (by decide) hw3
  have z4 := countQ_eq_zero_of_all ws4 isPyWs (by decide) hw4
  have z5 := countQ_eq_zero_of_all ws5 isPyWs (by decide) hw5
  have zv := countQ_eq_zero_of_ne val hvq
  have zt := countQ_eq_zero_of_ne tl htl
  have hcq : (c == '"') = false := beq_eq_false_iff_ne.mpr (sym_ne_quote c hc)
  simp only [countQ] at z1 z2 zh z3 z4 z5 zv zt
  simp only [mkLegend, countQ, List.count_cons, List.count_append,
    z1, z2, zh, z3, z4, z5, zv, zt, hcq]
  decide

theorem tryCands_unique (s : PyStr) :
    ∀ (cands : List Nat) (p : Char × PyStr),
    (∀ i ∈ cands, i ≠ 0 → matchTail (s.drop (i + 1)) = none) →
    0 ∈ cands → matchTail (s.drop 1) = some p →
    tryCands s cands = some p := by
  intro cands
  induction cands with
  | nil => intro p _ h0 _; cases h0
  | cons i rest ih =>
    intro p hfail h0 hp
    by_cases hi : i = 0
    · subst hi
      have hp' : matchTail s.tail = some p := by
        rw [← List.drop_one]
        exact hp
      simp [tryCands, hp']
    · have hf : matchTail (s.drop (i + 1)) = none :=
        hfail i (List.mem_cons_self _ _) hi
      simp only [tryCands, hf]
      refine ih p (fun j hj hjne => hfail j (List.mem_cons_of_mem _ hj) hjne) ?_ hp
      rcases List.mem_cons.mp h0 with h | h
      · exact absurd h.symm hi
      · exact h

/-- The legend regex on a well-formed line: the greedy `^.*"` anchors at
the opening quote (all later quote positions fail for lack of quotes in
their remainder), the symbol group is the character after that quote,
and the value group is the quoted string after `/*`. -/
theorem colourMatch_structured (c : Char) (ws1 ws2 hex ws3 ws4 ws5 val tl : PyStr)
    (hc : symClass c = true)
    (hw1 : ws1 ≠ []) (hw1a : ws1.all isPyWs = true)
    (hw2 : ws2 ≠ []) (hw2a : ws2.all isPyWs = true)
    (hhex : hex ≠ []) (hhexa : hex.all isHexU = true)
    (hw3 : ws3.all isPyWs = true) (hw4 : ws4.all isPyWs = true)
    (hw5 : ws5.all isPyWs = true)
    (hvq : val.all (fun ch => ch ≠ '"') = true)
    (hvn : val.all (fun ch => ch ≠ '\n') = true)
    (htl : tl.all (fun ch => ch ≠ '"') = true) :
    colourMatch (mkLegend c ws1 ws2 hex ws3 ws4 ws5 val tl) = some (c, val) := by
  have hmt0 : matchTail ((mkLegend c ws1 ws2 hex ws3 ws4 ws5 val tl).drop 1) =
      some (c, val) := by
    have hdrop : (mkLegend c ws1 ws2 hex ws3 ws4 ws5 val tl).drop 1 =
        c :: (ws1 ++ 'c' :: (ws2 ++ '#' :: (hex ++ ws3 ++ '"' ::
          (ws4 ++ '/' :: '*' :: (ws5 ++ '"' :: (val ++ '"' :: tl)))))) := rfl
    rw [hdrop]
    exact matchTail_structured c ws1 ws2 hex ws3 ws4 ws5 val tl hc hw1 hw1a hw2 hw2a
      hhex hhexa hw3 hw4 hw5 hvn htl
  have hcount : countQ (mkLegend c ws1 ws2 hex ws3 ws4 ws5 val tl) = 4 :=
    countQ_mkLegend c ws1 ws2 hex ws3 ws4 ws5 val tl hc hw1a hw2a hhexa hw3 hw4 hw5 hvq htl
  have h0q : (mkLegend c ws1 ws2 hex ws3 ws4 ws5 val tl)[0]? = some '"' := rfl
  unfold colourMatch
  apply tryCands_unique
  · intro i hi hine
    cases hmt : matchTail ((mkLegend c ws1 ws2 hex ws3 ws4 ws5 val tl).drop (i + 1)) with
    | none => rfl
    | some p =>
      exfalso
      have h3 : 3 ≤ countQ ((mkLegend c ws1 ws2 hex ws3 ws4 ws5 val tl).drop (i + 1)) :=
        countQ_matchTail _ p hmt
      have hiq : (mkLegend c ws1 ws2 hex ws3 ws4 ws5 val tl)[i]? = some '"' := by
        have hmem : i ∈ quoteIdxAux 0
            ((mkLegend c ws1 ws2 hex ws3 ws4 ws5 val tl).takeWhile (· ≠ '\n')) :=
          List.mem_reverse.mp hi
        have := (quoteIdxAux_mem _ 0 i hmem).2
        rw [Nat.sub_zero] at this
        exact getElem?_takeWhile _ _ i '"' this
      have h2 : 2 ≤ countQ ((mkLegend c ws1 ws2 hex ws3 ws4 ws5 val tl).take (i + 1)) :=
        two_le_countQ_of_getElem _ 0 i (by omega)
          (by rw [List.getElem?_take, if_pos (by omega)]; exact h0q)
          (by rw [List.getElem?_take, if_pos (by omega)]; exact hiq)
      have hsplit : countQ (mkLegend c ws1 ws2 hex ws3 ws4 ws5 val tl) =
          countQ ((mkLegend c ws1 ws2 hex ws3 ws4 ws5 val tl).take (i + 1)) +
          countQ ((mkLegend c ws1 ws2 hex ws3 ws4 ws5 val tl).drop (i + 1)) := by
        conv_lhs => rw [countQ, ← List.take_append_drop (i + 1)
          (mkLegend c ws1 ws2 hex ws3 ws4 ws5 val tl)]
        rw [List.count_append]
        rfl
      omega
  · have hseg : (mkLegend c ws1 ws2 hex ws3 ws4 ws5 val tl).takeWhile (· ≠ '\n') =
        '"' :: (c :: (ws1 ++ 'c' :: (ws2 ++ '#' :: (hex ++ ws3 ++ '"' ::
          (ws4 ++ '/' :: '*' :: (ws5 ++ '"' :: (val ++ '"' :: tl))))))).takeWhile
            (· ≠ '\n') := by
      rw [mkLegend, List.takeWhile_cons, if_pos (by decide)]
    rw [quoteCands, hseg, quoteIdxAux, if_pos rfl]
    exact List.mem_reverse.mpr (List.mem_cons_self _ _)
  · exact hmt0

theorem firstQuoteSucc_mkLegend (c : Char) (ws1 ws2 hex ws3 ws4 ws5 val tl : PyStr) :
    firstQuoteSucc (mkLegend c ws1 ws2 hex ws3 ws4 ws5 val tl) = some c := by
  rw [mkLegend]
  unfold firstQuoteSucc
  rw [List.dropWhile_cons, if_neg (by simp)]

theorem afterCommentOpen_skip (a : Char) (r : PyStr) (ha : a ≠ '/') :
    afterCommentOpen (a :: r) = afterCommentOpen r := by
  simp [afterCommentOpen, ha]

theorem afterCommentOpen_all_skip (p : Char → Bool) (hp : p '/' = false) :
    ∀ (xs r : PyStr), xs.all p = true → afterCommentOpen (xs ++ r) = afterCommentOpen r := by
  intro xs
  induction xs with
  | nil => intro r _; rfl
  | cons a t ih =>
    intro r hall
    rw [List.all_cons, Bool.and_eq_true] at hall
    have ha : a ≠ '/' := by
      intro he
      rw [he, hp] at hall
      cases hall.1
    rw [List.cons_append, afterCommentOpen_skip a _ ha, ih r hall.2]

theorem afterCommentOpen_mkLegend (c : Char) (ws1 ws2 hex ws3 ws4 ws5 val tl : PyStr)
    (hc : symClass c = true)
    (hw1a : ws1.all isPyWs = true) (hw2a : ws2.all isPyWs = true)
    (hhexa : hex.all isHexU = true)
    (hw3 : ws3.all isPyWs = true) (hw4 : ws4.all isPyWs = true) :
    afterCommentOpen (mkLegend c ws1 ws2 hex ws3 ws4 ws5 val tl) =
      some (ws5 ++ '"' :: (val ++ '"' :: tl)) := by
  rw [mkLegend]
  rw [afterCommentOpen_skip '"' _ (by decide)]
  rw [afterCommentOpen_skip c _ (sym_ne_slash c hc)]
  rw [afterCommentOpen_all_skip isPyWs (by decide) ws1 _ hw1a]
  rw [afterCommentOpen_skip 'c' _ (by decide)]
  rw [afterCommentOpen_all_skip isPyWs (by decide) ws2 _ hw2a]
  rw [afterCommentOpen_skip '#' _ (by decide)]
  rw [List.append_assoc]
  rw [afterCommentOpen_all_skip isHexU (by decide) hex _ hhexa]
  rw [afterCommentOpen_all_skip isPyWs (by decide) ws3 _ hw3]
  rw [afterCommentOpen_skip '"' _ (by decide)]
  rw [afterCommentOpen_all_skip isPyWs (by decide) ws4 _ hw4]
  rfl

theorem betweenNextQuotes_structured (ws5 val tl : PyStr)
    (hw5 : ws5.all isPyWs = true) (hvq : val.all (fun ch => ch ≠ '"') = true) :
    betweenNextQuotes (ws5 ++ '"' :: (val ++ '"' :: tl)) = some val := by
  unfold betweenNextQuotes
  rw [dropWhile_all_append_cons _ ws5 '"' _ (all_ne_quote_of_ws ws5 hw5) (by simp)]
  simp only []
  rw [takeWhile_all_append _ val _ hvq]
  rw [List.takeWhile_cons, if_neg (by simp)]
  simp

/-- C6, amended: on every well-formed legend line — opening quote,
single symbol character, whitespace, `c`, whitespace, `#`-hex colour,
closing quote, `/*`, quoted value, quote-free tail — `XPM.col` logs a
debug record and extracts exactly the character after the line's first
quote mark as the symbol and the substring between the quotes following
`/*` as the value.  (As stated over all accepted lines the claim fails:
the greedy `^.*"` may anchor at a later quote, see the
counterexample.) -/
theorem claim_C6_legend_extraction (c : Char) (ws1 ws2 hex ws3 ws4 ws5 val tl : PyStr)
    (hc : symClass c = true)
    (hw1 : ws1 ≠ []) (hw1a : ws1.all isPyWs = true)
    (hw2 : ws2 ≠ []) (hw2a : ws2.all isPyWs = true)
    (hhex : hex ≠ []) (hhexa : hex.all isHexU = true)
    (hw3 : ws3.all isPyWs = true) (hw4 : ws4.all isPyWs = true)
    (hw5 : ws5.all isPyWs = true)
    (hvq : val.all (fun ch => ch ≠ '"') = true)
    (hvn : val.all (fun ch => ch ≠ '\n') = true)
    (htl : tl.all (fun ch => ch ≠ '"') = true) :
    col (mkLegend c ws1 ws2 hex ws3 ws4 ws5 val tl) = ([Sev.debug], .ok (c, val)) ∧
      firstQuoteSucc (mkLegend c ws1 ws2 hex ws3 ws4 ws5 val tl) = some c ∧
      valueAfterComment (mkLegend c ws1 ws2 hex ws3 ws4 ws5 val tl) = some val := by
  have hcm := colourMatch_structured c ws1 ws2 hex ws3 ws4 ws5 val tl hc hw1 hw1a hw2 hw2a
    hhex hhexa hw3 hw4 hw5 hvq hvn htl
  refine ⟨?_, firstQuoteSucc_mkLegend c ws1 ws2 hex ws3 ws4 ws5 val tl, ?_⟩
  · simp [col, hcm]
  · unfold valueAfterComment
    rw [afterCommentOpen_mkLegend c ws1 ws2 hex ws3 ws4 ws5 val tl hc hw1a hw2a hhexa
      hw3 hw4]
    rw [Option.some_bind]
    exact betweenNextQuotes_structured ws5 val tl hw5 hvq

/-- Witness for the amended C6 at a concrete well-formed legend line
(`"o  c #FF0000 " /* "Present" */,`). -/
theorem claim_C6_legend_extraction_witness :
    col (mkLegend 'o' [' ', ' '] [' '] ("FF0000".toList) [' '] [' '] [' ']
        ("Present".toList) (" */,\n".toList)) =
      ([Sev.debug], .ok ('o', "Present".toList)) ∧
      firstQuoteSucc (mkLegend 'o' [' ', ' '] [' '] ("FF0000".toList) [' '] [' '] [' ']
        ("Present".toList) (" */,\n".toList)) = some 'o' ∧
      valueAfterComment (mkLegend 'o' [' ', ' '] [' '] ("FF0000".toList) [' '] [' '] [' ']
        ("Present".toList) (" */,\n".toList)) = some ("Present".toList) :=
  claim_C6_legend_extraction 'o' [' ', ' '] [' '] ("FF0000".toList) [' '] [' '] [' ']
    ("Present".toList) (" */,\n".toList)
    (by decide) (by decide) (by decide) (by decide) (by decide) (by decide) (by decide)
    (by decide) (by decide) (by decide) (by decide) (by decide) (by decide)

/-- C6, the part that fails: an adversarial line whose first two quote
marks are adjacent.  `XPM.col` accepts it — the greedy `^.*"` anchors at
the second quote — and extracts symbol `'o'`, but the character
immediately after the line's first quote mark is another quote, not the
extracted symbol. -/
theorem claim_C6_counterexample :
    colourMatch cexC6line = some ('o', ['v']) ∧
      firstQuoteSucc cexC6line = some '"' ∧ ('o' : Char) ≠ '"' :=
  ⟨rfl, rfl, by decide⟩

end Gmx
